import Mathlib

/-!
# Verification of the mytrace buffered-tracing pipeline

Shallow embedding of the core of the `aitrace` package:

* `src/aitrace/server.py` — ingestion normalization (`normalize_record`,
  `ingest_records`), trace-tree reconstruction (`fetch_trace`), and the
  query endpoints (`list_traces`, `get_trace`).
* `src/aitrace/buffer.py` — the `BufferedLogger` delivery side: `flush`,
  `_flush_http` with its HTML fallback, `_flush_file`, `_flush_stdout`,
  and the `trace_context` context manager.

Python dictionaries are embedded as ordered association lists of JSON-like
values (`JVal`); Python truthiness is `truthy`; the `or` chains of the
source are `pyOr`.  External collaborators (the `requests` network call,
the filesystem, SQLite row storage, the stdlib `json` codec) are modelled
at their boundary: the network and the file system become explicit outcome
parameters, the SQLite table becomes a Lean list of rows, and the opaque
`attrs` JSON text column is carried structurally (the stdlib guarantees
`json.loads (json.dumps m) = m` for JSON-representable `m`, so the column
is embedded as the mapping itself).
-/

namespace Mytrace

/-- JSON-like values: the shape of structlog event fields and of every
value a record field can hold after the request body is parsed. -/
inductive JVal where
  | str (s : String)
  | num (n : Int)
  | bool (b : Bool)
  | null
  | obj (fields : List (String × JVal))
  | arr (items : List JVal)
  deriving Repr

mutual

/-- Boolean equality on JSON-like values (deriving cannot handle the
nested lists, so it is spelled out). -/
def JVal.beq : JVal → JVal → Bool
  | JVal.str a, JVal.str b => a == b
  | JVal.num a, JVal.num b => a == b
  | JVal.bool a, JVal.bool b => a == b
  | JVal.null, JVal.null => true
  | JVal.obj a, JVal.obj b => JVal.beqFields a b
  | JVal.arr a, JVal.arr b => JVal.beqItems a b
  | _, _ => false

/-- Pointwise equality of JSON arrays. -/
def JVal.beqItems : List JVal → List JVal → Bool
  | [], [] => true
  | x :: xs, y :: ys => JVal.beq x y && JVal.beqItems xs ys
  | _, _ => false

/-- Pointwise equality of JSON object member lists. -/
def JVal.beqFields : List (String × JVal) → List (String × JVal) → Bool
  | [], [] => true
  | x :: xs, y :: ys => x.1 == y.1 && JVal.beq x.2 y.2 && JVal.beqFields xs ys
  | _, _ => false

end

mutual

theorem JVal.beq_iff : ∀ a b : JVal, JVal.beq a b = true ↔ a = b
  | JVal.str _, b => by cases b <;> simp [JVal.beq]
  | JVal.num _, b => by cases b <;> simp [JVal.beq]
  | JVal.bool _, b => by cases b <;> simp [JVal.beq]
  | JVal.null, b => by cases b <;> simp [JVal.beq]
  | JVal.obj fs, b => by
      cases b <;> simp [JVal.beq]
      exact JVal.beqFields_iff fs _
  | JVal.arr xs, b => by
      cases b <;> simp [JVal.beq]
      exact JVal.beqItems_iff xs _

theorem JVal.beqItems_iff : ∀ a b : List JVal, JVal.beqItems a b = true ↔ a = b
  | [], b => by cases b <;> simp [JVal.beqItems]
  | _ :: _, [] => by simp [JVal.beqItems]
  | x :: xs, y :: ys => by
      simp [JVal.beqItems, Bool.and_eq_true, JVal.beq_iff x y, JVal.beqItems_iff xs ys]

theorem JVal.beqFields_iff : ∀ a b : List (String × JVal), JVal.beqFields a b = true ↔ a = b
  | [], b => by cases b <;> simp [JVal.beqFields]
  | _ :: _, [] => by simp [JVal.beqFields]
  | x :: xs, y :: ys => by
      simp [JVal.beqFields, Bool.and_eq_true, JVal.beq_iff x.2 y.2,
        JVal.beqFields_iff xs ys, Prod.ext_iff]

end

instance : DecidableEq JVal := fun a b => decidable_of_iff _ (JVal.beq_iff a b)

/-- A Python dict with string keys: an ordered association list
(insertion order preserved, as in CPython). -/
abbrev Rec := List (String × JVal)

/-- Model of `d.get(k)`: Python's dict lookup returning `None` when the key is
absent.  A key stored with value `None` and an absent key are both `null`
to the `or`-chains of the source, so we collapse them as Python does. -/
def pyGet (d : Rec) (k : String) : JVal :=
  match d.lookup k with
  | some v => v
  | none => JVal.null

/-- Python truthiness of a JSON-like value. -/
def truthy : JVal → Bool
  | JVal.str s => !(s == "")
  | JVal.num n => !(n == 0)
  | JVal.bool b => b
  | JVal.null => false
  | JVal.obj fields => !fields.isEmpty
  | JVal.arr items => !items.isEmpty

/-- Python's `a or b`. -/
def pyOr (a b : JVal) : JVal := if truthy a then a else b

/-- The key names `normalize_record` pops from `attrs`
(server.py lines 101-102): every standard field and its aliases. -/
def stdKeys : List String :=
  ["timestamp", "ts", "@timestamp", "level", "lvl", "logger", "name",
   "event", "message", "msg", "trace_id", "span_id", "parent_span_id", "parent_id"]

/-- The normalized storage row produced by `normalize_record`
(server.py lines 105-114).  The `attrs` column holds
`json.dumps` of the non-standard remainder of the record; it is embedded
structurally (see the module docstring). -/
structure StoredRow where
  ts : JVal
  level : JVal
  logger : JVal
  event : JVal
  trace_id : JVal
  span_id : JVal
  parent_span_id : JVal
  attrs : Rec
  deriving Repr, DecidableEq

/-- Embedding of `normalize_record` (server.py lines 81-114): alias resolution by
`or`-chains, the id guard, and the `attrs` remainder. -/
def normalize_record (d : Rec) : Option StoredRow :=
  let ts := pyOr (pyGet d "timestamp") (pyOr (pyGet d "ts") (pyGet d "@timestamp"))
  let level := pyOr (pyGet d "level") (pyGet d "lvl")
  let logger := pyOr (pyGet d "logger") (pyGet d "name")
  let event := pyOr (pyGet d "event") (pyOr (pyGet d "message") (pyGet d "msg"))
  let trace_id := pyGet d "trace_id"
  let span_id := pyGet d "span_id"
  let parent_span_id := pyOr (pyGet d "parent_span_id") (pyGet d "parent_id")
  if truthy trace_id && truthy span_id then
    some { ts := ts, level := level, logger := logger, event := event,
           trace_id := trace_id, span_id := span_id,
           parent_span_id := parent_span_id,
           attrs := d.filter (fun kv => !(stdKeys.contains kv.1)) }
  else
    none

/-- Embedding of `ingest_records` (server.py lines 117-135): normalize each record,
keep the valid ones (in order), insert them in one transaction, and
report `len(rows)`. -/
def ingest_records (records : List Rec) : List StoredRow :=
  records.filterMap normalize_record

/-- The count returned by the ingest endpoint. -/
def ingest_count (records : List Rec) : Nat :=
  (ingest_records records).length

/-- A record's field `k` is present with a non-empty string value: the
reading of "present and non-empty" for an identifier field, which the
data model fixes as a hexadecimal string. -/
def hasNonemptyStrField (d : Rec) (k : String) : Bool :=
  match d.lookup k with
  | some (JVal.str s) => !(s == "")
  | _ => false

/-- Absent, or present with a string value. -/
def isStrOrAbsent : Option JVal → Bool
  | some (JVal.str _) => true
  | some _ => false
  | none => true

/-- The identifier fields carry strings when present (the data model:
trace and span ids are fixed-width hexadecimal strings). -/
def idFieldsAreStrings (d : Rec) : Prop :=
  isStrOrAbsent (d.lookup "trace_id") = true ∧ isStrOrAbsent (d.lookup "span_id") = true

instance (d : Rec) : Decidable (idFieldsAreStrings d) :=
  inferInstanceAs (Decidable (_ ∧ _))

example : normalize_record [("trace_id", JVal.str "t"), ("span_id", JVal.str "")] = none := by decide

example : ingest_count [[("trace_id", JVal.str "t"), ("span_id", JVal.str "s")],
                        [("trace_id", JVal.str "t")]] = 1 := by decide

example : (normalize_record [("trace_id", JVal.str "t"), ("span_id", JVal.str "s"),
    ("event", JVal.str ""), ("msg", JVal.str "boom")]).map StoredRow.event
    = some (JVal.str "boom") := by decide

/-! ## String ordering and stable sorting

SQLite compares `TEXT` values by `memcmp` on their UTF-8 bytes and Python
compares strings by code points; the two orders coincide (UTF-8 preserves
code-point order), and both are the lexicographic order below.  Core's
`String.lt` does not reduce in the kernel, so the order is defined on the
character lists directly. -/

/-- Lexicographic strict order on character lists by code point. -/
def charsLt : List Char → List Char → Bool
  | [], [] => false
  | [], _ :: _ => true
  | _ :: _, [] => false
  | a :: as, b :: bs =>
    if a.toNat < b.toNat then true
    else if b.toNat < a.toNat then false
    else charsLt as bs

/-- Strict string order (SQLite `<` on TEXT, Python `<` on `str`). -/
def strLt (a b : String) : Bool := charsLt a.data b.data

/-- Non-strict string order. -/
def strLe (a b : String) : Bool := !(strLt b a)

theorem char_eq_of_toNat_eq {a b : Char} (h : a.toNat = b.toNat) : a = b := by
  unfold Char.toNat at h
  exact Char.eq_of_val_eq (UInt32.toNat.inj h)

theorem string_ext {a b : String} (h : a.data = b.data) : a = b := by
  cases a
  cases b
  simp_all

theorem charsLt_irrefl : ∀ l : List Char, charsLt l l = false
  | [] => rfl
  | _ :: as => by simp [charsLt, charsLt_irrefl as]

theorem charsLt_asymm (a : List Char) : ∀ b, charsLt a b = true → charsLt b a = false := by
  induction a with
  | nil => intro b; cases b <;> simp [charsLt]
  | cons x xs ih =>
    intro b
    cases b with
    | nil => simp [charsLt]
    | cons y ys =>
      simp only [charsLt]
      rcases Nat.lt_trichotomy x.toNat y.toNat with h | h | h
      · simp [h, Nat.lt_asymm h]
      · simp only [h, Nat.lt_irrefl, if_neg (by omega : ¬ y.toNat < y.toNat)]
        exact ih ys
      · simp [h, Nat.lt_asymm h]

theorem charsLt_eq_of_not (a : List Char) :
    ∀ b, charsLt a b = false → charsLt b a = false → a = b := by
  induction a with
  | nil => intro b; cases b <;> simp [charsLt]
  | cons x xs ih =>
    intro b
    cases b with
    | nil => simp [charsLt]
    | cons y ys =>
      simp only [charsLt]
      rcases Nat.lt_trichotomy x.toNat y.toNat with h | h | h
      · simp [h]
      · simp only [h, Nat.lt_irrefl, if_neg (by omega : ¬ y.toNat < y.toNat)]
        intro h₁ h₂
        simp [char_eq_of_toNat_eq h, ih ys h₁ h₂]
      · simp [h, Nat.lt_asymm h]

theorem charsLt_trans (a : List Char) :
    ∀ b c, charsLt a b = true → charsLt b c = true → charsLt a c = true := by
  induction a with
  | nil =>
    intro b c
    cases b <;> cases c <;> simp [charsLt]
  | cons x xs ih =>
    intro b c
    cases b with
    | nil => simp [charsLt]
    | cons y ys =>
      cases c with
      | nil => simp [charsLt]
      | cons z zs =>
        simp only [charsLt]
        rcases Nat.lt_trichotomy x.toNat y.toNat with h₁ | h₁ | h₁ <;>
          rcases Nat.lt_trichotomy y.toNat z.toNat with h₂ | h₂ | h₂
        · intro _ _
          rw [if_pos (by omega)]
        · intro _ _
          rw [if_pos (by omega)]
        · intro _ hbc
          rw [if_neg (by omega), if_pos (by omega)] at hbc
          cases hbc
        · intro _ _
          rw [if_pos (by omega)]
        · intro hab hbc
          rw [if_neg (by omega), if_neg (by omega)] at hab
          rw [if_neg (by omega), if_neg (by omega)] at hbc
          rw [if_neg (by omega), if_neg (by omega)]
          exact ih ys zs hab hbc
        · intro _ hbc
          rw [if_neg (by omega), if_pos (by omega)] at hbc
          cases hbc
        · intro hab _
          rw [if_neg (by omega), if_pos (by omega)] at hab
          cases hab
        · intro hab _
          rw [if_neg (by omega), if_pos (by omega)] at hab
          cases hab
        · intro hab _
          rw [if_neg (by omega), if_pos (by omega)] at hab
          cases hab

theorem strLe_total (a b : String) : strLe a b = true ∨ strLe b a = true := by
  rcases Bool.eq_false_or_eq_true (charsLt b.data a.data) with h | h
  · right
    simp [strLe, strLt, charsLt_asymm _ _ h]
  · left
    simp [strLe, strLt, h]

theorem strLe_antisymm {a b : String} (h₁ : strLe a b = true) (h₂ : strLe b a = true) :
    a = b := by
  simp only [strLe, strLt, Bool.not_eq_true'] at h₁ h₂
  exact string_ext (charsLt_eq_of_not _ _ h₂ h₁)

theorem strLt_of_not_le {a b : String} (h : strLe a b = false) : strLt b a = true := by
  simpa [strLe] using h

theorem strLe_of_lt {a b : String} (h : strLt a b = true) : strLe a b = true := by
  simp only [strLe, strLt, Bool.not_eq_true']
  exact charsLt_asymm _ _ h

theorem strLe_trans {a b c : String} (h₁ : strLe a b = true) (h₂ : strLe b c = true) :
    strLe a c = true := by
  simp only [strLe, strLt, Bool.not_eq_true'] at h₁ h₂ ⊢
  rcases Bool.eq_false_or_eq_true (charsLt c.data a.data) with h | h
  · rcases Bool.eq_false_or_eq_true (charsLt a.data b.data) with hab | hab
    · have := charsLt_trans _ _ _ h hab
      rw [this] at h₂
      cases h₂
    · have hEq := charsLt_eq_of_not _ _ hab h₁
      rw [hEq] at h
      rw [h] at h₂
      cases h₂
  · exact h

example : strLt "ab" "b" = true := by decide
example : strLe "abc" "abc" = true := by decide

theorem length_filterMap_eq_filter (f : α → Option β) :
    ∀ l : List α, (l.filterMap f).length = (l.filter (fun x => (f x).isSome)).length
  | [] => rfl
  | x :: xs => by
    simp only [List.filterMap_cons, List.filter_cons]
    cases hfx : f x <;> simp [hfx, length_filterMap_eq_filter f xs]

theorem length_filter_add_not (p : α → Bool) :
    ∀ l : List α, (l.filter p).length + (l.filter (fun x => !(p x))).length = l.length
  | [] => rfl
  | x :: xs => by
    have ih := length_filter_add_not p xs
    simp only [List.filter_cons]
    cases hx : p x <;> simp <;> omega

theorem lookup_eq_of_mem_of_nodup {β : Type _} {l : List (String × β)} {k : String} {v : β}
    (h : (k, v) ∈ l) (hn : (l.map Prod.fst).Nodup) : l.lookup k = some v := by
  induction l with
  | nil => simp at h
  | cons x xs ih =>
    simp only [List.map_cons, List.nodup_cons] at hn
    rcases List.mem_cons.mp h with rfl | hmem
    · simp [List.lookup]
    · have hk : (k == x.1) = false := by
        simp only [beq_eq_false_iff_ne, ne_eq]
        intro hk
        exact hn.1 (hk ▸ List.mem_map_of_mem Prod.fst hmem)
      simp only [List.lookup, hk]
      exact ih hmem hn.2

/-! ### Stable insertion sort

`ORDER BY` on a key that contains the unique `id` column is a
deterministic total order, and Python's `list.sort` is a stable sort;
both are realized by insertion sort over a boolean `le`. -/

/-- Insert `a` before the first element `b` with `le a b`. -/
def insertBy (le : α → α → Bool) (a : α) : List α → List α
  | [] => [a]
  | b :: bs => if le a b then a :: b :: bs else b :: insertBy le a bs

/-- Insertion sort; stable because `insertBy` uses the non-strict order,
so an element inserted later (i.e. earlier in the input) lands before
the equals already present. -/
def sortBy (le : α → α → Bool) : List α → List α
  | [] => []
  | a :: as => insertBy le a (sortBy le as)

theorem perm_insertBy (le : α → α → Bool) (a : α) :
    ∀ l : List α, List.Perm (insertBy le a l) (a :: l)
  | [] => List.Perm.refl _
  | b :: bs => by
    simp only [insertBy]
    split
    · exact List.Perm.refl _
    · exact ((perm_insertBy le a bs).cons b).trans (List.Perm.swap a b bs)

theorem perm_sortBy (le : α → α → Bool) : ∀ l : List α, List.Perm (sortBy le l) l
  | [] => List.Perm.refl _
  | a :: as =>
    (perm_insertBy le a (sortBy le as)).trans ((perm_sortBy le as).cons a)

theorem mem_sortBy {le : α → α → Bool} {l : List α} {a : α} :
    a ∈ sortBy le l ↔ a ∈ l :=
  (perm_sortBy le l).mem_iff

theorem count_sortBy [DecidableEq α] (le : α → α → Bool) (l : List α) (a : α) :
    (sortBy le l).count a = l.count a :=
  (perm_sortBy le l).count_eq a

theorem length_sortBy (le : α → α → Bool) (l : List α) :
    (sortBy le l).length = l.length :=
  (perm_sortBy le l).length_eq

theorem sorted_insertBy {le : α → α → Bool}
    (htotal : ∀ a b, le a b = true ∨ le b a = true)
    (htrans : ∀ a b c, le a b = true → le b c = true → le a c = true)
    (a : α) : ∀ {l : List α}, l.Pairwise (fun x y => le x y = true) →
    (insertBy le a l).Pairwise (fun x y => le x y = true)
  | [], _ => List.pairwise_singleton _ a
  | b :: bs, h => by
    simp only [insertBy]
    rcases List.pairwise_cons.mp h with ⟨hb, hbs⟩
    split
    · rename_i hab
      refine List.pairwise_cons.mpr ⟨?_, h⟩
      intro x hx
      rcases List.mem_cons.mp hx with rfl | hx
      · exact hab
      · exact htrans a b x hab (hb x hx)
    · rename_i hab
      have hba : le b a = true := by
        rcases htotal a b with h' | h'
        · exact absurd h' hab
        · exact h'
      refine List.pairwise_cons.mpr ⟨?_, sorted_insertBy htotal htrans a hbs⟩
      intro x hx
      rcases List.mem_cons.mp ((perm_insertBy le a bs).mem_iff.mp hx) with rfl | hx
      · exact hba
      · exact hb x hx

theorem sorted_sortBy {le : α → α → Bool}
    (htotal : ∀ a b, le a b = true ∨ le b a = true)
    (htrans : ∀ a b c, le a b = true → le b c = true → le a c = true) :
    ∀ l : List α, (sortBy le l).Pairwise (fun x y => le x y = true)
  | [] => List.Pairwise.nil
  | a :: as => sorted_insertBy htotal htrans a (sorted_sortBy htotal htrans as)

theorem insertBy_map {β : Type _} (le : α → α → Bool) (le' : β → β → Bool)
    (f : α → β) (hf : ∀ a b, le' (f a) (f b) = le a b) (a : α) :
    ∀ l : List α, insertBy le' (f a) (l.map f) = (insertBy le a l).map f
  | [] => rfl
  | b :: bs => by
    simp only [List.map_cons, insertBy, hf]
    split
    · rfl
    · simp [insertBy_map le le' f hf a bs]

theorem sortBy_map {β : Type _} (le : α → α → Bool) (le' : β → β → Bool)
    (f : α → β) (hf : ∀ a b, le' (f a) (f b) = le a b) :
    ∀ l : List α, sortBy le' (l.map f) = (sortBy le l).map f
  | [] => rfl
  | a :: as => by
    simp only [List.map_cons, sortBy]
    rw [sortBy_map le le' f hf as, insertBy_map le le' f hf]

/-- Keys of a Python dict in insertion order: first occurrences, in order.
Used for `logs_by_span` / `parent_for_span` / GROUP BY key sets. -/
def dedupFirst : List String → List String
  | [] => []
  | s :: rest => s :: (dedupFirst rest).filter (fun x => !(x == s))

theorem mem_dedupFirst {s : String} : ∀ {l : List String}, s ∈ dedupFirst l ↔ s ∈ l := by
  intro l
  induction l with
  | nil => simp [dedupFirst]
  | cons a as ih =>
    by_cases hs : s = a
    · subst hs
      simp [dedupFirst]
    · simp [dedupFirst, List.mem_filter, ih, hs]

theorem nodup_dedupFirst : ∀ l : List String, (dedupFirst l).Nodup
  | [] => List.nodup_nil
  | a :: as => by
    simp only [dedupFirst]
    refine List.Pairwise.cons ?_ (List.Pairwise.filter _ (nodup_dedupFirst as))
    intro x hx
    rcases List.mem_filter.mp hx with ⟨_, hne⟩
    intro hax
    rw [← hax] at hne
    simp at hne

/-! ## The log store

One row of the `logs` table (server.py lines 42-52).  `id` is the
autoincrement primary key, so it reflects insertion order and is unique;
`ts` is a nullable ISO-8601 string; `trace_id` and `span_id` are
`NOT NULL` text; `attrs` is the JSON text produced at ingestion, carried
structurally (module docstring). -/
structure DbRow where
  id : Nat
  ts : Option String
  level : Option String
  logger : Option String
  event : Option String
  attrs : Rec
  trace_id : String
  span_id : String
  parent_span_id : Option String
  deriving Repr, DecidableEq

/-- The sort key `COALESCE(ts, '')` of a row. -/
def tsKey (r : DbRow) : String := r.ts.getD ""

/-- The order `ORDER BY COALESCE(ts, ''), id` (server.py line 145): the unique
`id` column makes this a deterministic total order. -/
def rowLe (a b : DbRow) : Bool :=
  strLt (tsKey a) (tsKey b) || (tsKey a == tsKey b && a.id ≤ b.id)

/-- The rows of one trace in delivery order to the tree builder:
`SELECT ... WHERE trace_id = ? ORDER BY COALESCE(ts,''), id`. -/
def traceRows (table : List DbRow) (tid : String) : List DbRow :=
  sortBy rowLe (table.filter (fun r => r.trace_id == tid))

/-- Span ids of the trace in first-appearance order: the key order of
the Python dict `logs_by_span` (server.py lines 155-162). -/
def spanIdsOf (rows : List DbRow) : List String :=
  dedupFirst (rows.map (fun r => r.span_id))

/-- The first row of a span in delivered order (`logs_by_span[sid][0]`). -/
def firstRowOf (rows : List DbRow) (sid : String) : Option DbRow :=
  rows.find? (fun r => r.span_id == sid)

/-- The entry `parent_for_span[sid]`: the `parent_span_id` of the span's first row
(server.py lines 161-162). -/
def recordedParent (rows : List DbRow) (sid : String) : Option String :=
  (firstRowOf rows sid).bind (fun r => r.parent_span_id)

/-- The Python condition `if parent and parent in children`
(server.py line 169): the recorded parent is truthy (not `None`, not the
empty string) and is itself a span of this trace. -/
def isAttachedChild (rows : List DbRow) (sid : String) : Bool :=
  match recordedParent rows sid with
  | some p => !(p == "") && (spanIdsOf rows).contains p
  | none => false

/-- The key `first_ts` (server.py lines 175-177): `recs[0]["ts"] or ""`. -/
def firstTs (rows : List DbRow) (sid : String) : String :=
  match firstRowOf rows sid with
  | some r => r.ts.getD ""
  | none => ""

/-- Key order for `cid_list.sort(key=first_ts)` (server.py line 180). -/
def childLe (rows : List DbRow) (a b : String) : Bool :=
  strLe (firstTs rows a) (firstTs rows b)

/-- The sorted child list of one parent: members appended in
`parent_for_span` iteration order (= span-id first-appearance order),
then stably sorted by the child's first timestamp. -/
def childrenOf (rows : List DbRow) (p : String) : List String :=
  sortBy (childLe rows)
    ((spanIdsOf rows).filter (fun sid =>
      isAttachedChild rows sid && (recordedParent rows sid == some p)))

/-- The `roots` list (server.py lines 168-172). -/
def rootsOf (rows : List DbRow) : List String :=
  (spanIdsOf rows).filter (fun sid => !(isAttachedChild rows sid))

/-- The title `node_title` (server.py lines 183-191): prefer `code.function` /
`function` from the first row's attrs, then the first row's event, then
the span id.  The value is whatever JSON value wins the `or`-chain. -/
def nodeTitle (rows : List DbRow) (sid : String) : JVal :=
  match firstRowOf rows sid with
  | some first =>
      let fn := pyOr (pyGet first.attrs "code.function")
        (pyOr (pyGet first.attrs "function") (JVal.str ""))
      let ev := JVal.str (first.event.getD "")
      pyOr fn (pyOr ev (JVal.str sid))
  | none => JVal.str sid

/-- The reconstructed trace tree (server.py lines 193-200); the maps are
association lists in the Python dicts' key-insertion order. -/
structure Tree where
  trace_id : String
  roots : List String
  children : List (String × List String)
  logs_by_span : List (String × List DbRow)
  parent_for_span : List (String × Option String)
  title_for_span : List (String × JVal)
  deriving Repr, DecidableEq

/-- The tree assembled from a trace's delivered rows
(server.py lines 154-200). -/
def buildTree (rows : List DbRow) (tid : String) : Tree :=
  { trace_id := tid
    roots := rootsOf rows
    children := (spanIdsOf rows).map (fun sid => (sid, childrenOf rows sid))
    logs_by_span := (spanIdsOf rows).map
      (fun sid => (sid, rows.filter (fun r => r.span_id == sid)))
    parent_for_span := (spanIdsOf rows).map (fun sid => (sid, recordedParent rows sid))
    title_for_span := (spanIdsOf rows).map (fun sid => (sid, nodeTitle rows sid)) }

/-- Embedding of `fetch_trace` (server.py lines 138-200). -/
def fetch_trace (table : List DbRow) (tid : String) : Option Tree :=
  if (traceRows table tid).isEmpty then none
  else some (buildTree (traceRows table tid) tid)

/-! ## Query endpoints -/

/-- One row of the `/api/traces` response (server.py lines 236-244). -/
structure TraceSummary where
  trace_id : String
  start_ts : Option String
  end_ts : Option String
  events : Nat
  deriving Repr, DecidableEq

/-- SQL `MIN` over a group's non-NULL `ts`: NULL only when the group
has no non-NULL value. -/
def minTs (l : List String) : Option String :=
  l.foldl (fun acc s =>
    match acc with
    | none => some s
    | some m => some (if strLt s m then s else m)) none

/-- SQL `MAX` over a group's non-NULL `ts`. -/
def maxTs (l : List String) : Option String :=
  l.foldl (fun acc s =>
    match acc with
    | none => some s
    | some m => some (if strLt m s then s else m)) none

/-- The non-NULL timestamps of one trace's rows. -/
def tsListOf (table : List DbRow) (tid : String) : List String :=
  (table.filter (fun r => r.trace_id == tid)).filterMap (fun r => r.ts)

/-- The grouped keys of `GROUP BY trace_id`. -/
def distinctTraceIds (table : List DbRow) : List String :=
  dedupFirst (table.map (fun r => r.trace_id))

/-- The aggregate row of one `trace_id` group. -/
def summaryOf (table : List DbRow) (tid : String) : TraceSummary :=
  { trace_id := tid
    start_ts := minTs (tsListOf table tid)
    end_ts := maxTs (tsListOf table tid)
    events := (table.filter (fun r => r.trace_id == tid)).length }

/-- The order `ORDER BY MAX(ts) DESC`: SQLite sorts NULL below every TEXT value,
so in descending order NULL `end_ts` comes last. -/
def summaryLe (a b : TraceSummary) : Bool :=
  match a.end_ts, b.end_ts with
  | _, none => true
  | none, some _ => false
  | some x, some y => strLe y x

/-- Embedding of `list_traces` (server.py lines 231-245).  The `limit` parameter is
declared `Query(100, ge=1, le=1000)`: FastAPI validates the bound and
answers 422 Unprocessable Entity for an out-of-range value, so the
query never reaches SQL in that case. -/
def list_traces (table : List DbRow) (limit : Int) : Except String (List TraceSummary) :=
  if limit < 1 || 1000 < limit then
    Except.error "422 Unprocessable Entity"
  else
    Except.ok ((sortBy summaryLe
      ((distinctTraceIds table).map (summaryOf table))).take limit.toNat)

/-- One log entry of the `/api/trace/{trace_id}` response
(server.py lines 263-271): the stored columns plus
`json.loads(r["attrs"] or "{}")`, which recovers exactly the mapping
serialized at ingestion (stdlib JSON round-trip, carried structurally). -/
structure LogOut where
  ts : Option String
  level : Option String
  logger : Option String
  event : Option String
  attrs : Rec
  deriving Repr, DecidableEq

/-- Formatting of one stored row for the JSON response. -/
def logOut (r : DbRow) : LogOut :=
  { ts := r.ts, level := r.level, logger := r.logger, event := r.event, attrs := r.attrs }

/-- The `/api/trace/{trace_id}` response body (server.py lines 256-275). -/
structure TracePayload where
  trace_id : String
  roots : List String
  children : List (String × List String)
  parent_for_span : List (String × Option String)
  title_for_span : List (String × JVal)
  logs_by_span : List (String × List LogOut)
  deriving Repr, DecidableEq

/-- Embedding of `get_trace` (server.py lines 248-276): 404 when `fetch_trace`
returns nothing, otherwise the formatted tree. -/
def get_trace (table : List DbRow) (tid : String) : Except Nat TracePayload :=
  match fetch_trace table tid with
  | none => Except.error 404
  | some t =>
      Except.ok
        { trace_id := t.trace_id
          roots := t.roots
          children := t.children
          parent_for_span := t.parent_for_span
          title_for_span := t.title_for_span
          logs_by_span := t.logs_by_span.map (fun sl => (sl.1, sl.2.map logOut)) }

/-! ## The buffered logger (buffer.py)

The delivery side runs against the outside world: the HTTP POST, the
log-file append, stdout, and the fallback HTML file write.  Each is an
explicit outcome in an `Env`, so `flush` becomes a pure function of the
buffer and the environment.  A Python exception propagating out of a
call is an `Except.error`. -/

/-- The resolved sink (buffer.py `_parse_target`). -/
inductive Target where
  | http (url : String)
  | file (path : String)
  | stdout
  deriving Repr, DecidableEq

/-- A Python exception escaping `flush` / `trace_context`. -/
inductive PyErr where
  | ioError (msg : String)
  | attributeError
  | raised (msg : String)
  deriving Repr, DecidableEq

/-- Outcome of `requests.post(...)` + `raise_for_status()` + `.json()`:
any `RequestException` — connection refused, DNS failure, timeout,
non-2xx status — is `fail` (buffer.py lines 373-384 catch exactly
these), and a success carries the parsed JSON body. -/
inductive NetOutcome where
  | ok (body : Rec)
  | fail (err : String)
  deriving Repr, DecidableEq

/-- Outcome of a filesystem or stream write. -/
inductive WriteOutcome where
  | ok
  | fail (msg : String)
  deriving Repr, DecidableEq

/-- The external world of one `flush` call. -/
structure Env where
  net : NetOutcome
  fileWrite : WriteOutcome
  fallbackWrite : WriteOutcome
  stdoutWrite : WriteOutcome
  home : String
  now : String
  deriving Repr, DecidableEq

/-- The keys `_generate_html_trace` renders outside the details block —
note `logger` is in this exclusion list (buffer.py lines 444-446) yet is
never rendered anywhere else in the entry. -/
def htmlExcludedKeys : List String :=
  ["level", "event", "timestamp", "trace_id", "span_id", "parent_span_id", "logger"]

/-- Model of `d.get(k, default)`: the default applies only when the key is absent
(a key stored with `None` yields `None`, not the default). -/
def getDefault (e : Rec) (k : String) (d : JVal) : JVal :=
  match e.lookup k with
  | some v => v
  | none => d

mutual

/-- Python `str()` as used by f-string interpolation. -/
def pyStr : JVal → String
  | JVal.str s => s
  | v => pyRepr v

/-- Python `repr()` (string members of containers are quoted; quoting
is modelled without inner escaping, which no claim exercises). -/
def pyRepr : JVal → String
  | JVal.str s => "'" ++ s ++ "'"
  | JVal.num n => toString n
  | JVal.bool b => if b then "True" else "False"
  | JVal.null => "None"
  | JVal.obj fs => "\x7b" ++ String.intercalate ", " (pyReprFields fs) ++ "\x7d"
  | JVal.arr xs => "[" ++ String.intercalate ", " (pyReprItems xs) ++ "]"

def pyReprFields : List (String × JVal) → List String
  | [] => []
  | (k, v) :: rest => ("'" ++ k ++ "': " ++ pyRepr v) :: pyReprFields rest

def pyReprItems : List JVal → List String
  | [] => []
  | v :: rest => pyRepr v :: pyReprItems rest

end

/-- The data of one `log-entry` block of the fallback HTML
(buffer.py lines 433-473): the six interpolated header pieces and the
details dict rendered with `json.dumps(details, indent=2, ...)`.  The
fixed template text around them carries no record data.  `None` when
the entry crashes the generator (`.lower()` on a non-string level). -/
structure EntryView where
  levelPiece : String
  timestampPiece : String
  eventPiece : String
  traceIdPiece : String
  spanIdPiece : String
  parentSpanIdPiece : String
  details : Rec
  deriving Repr, DecidableEq

/-- Python `str.lower()` on the character list (the source's level
strings are ASCII; core's `String.toLower` is equivalent there but does
not reduce in the kernel). -/
def pyLower (s : String) : String := String.mk (s.data.map Char.toLower)

/-- One entry of `_generate_html_trace` (buffer.py lines 433-448). -/
def entryView (e : Rec) : Option EntryView :=
  match getDefault e "level" (JVal.str "info") with
  | JVal.str s =>
      some
        { levelPiece := pyLower s
          timestampPiece := pyStr (getDefault e "timestamp" (JVal.str ""))
          eventPiece := pyStr (getDefault e "event" (JVal.str ""))
          traceIdPiece := pyStr (getDefault e "trace_id" (JVal.str "N/A"))
          spanIdPiece := pyStr (getDefault e "span_id" (JVal.str "N/A"))
          parentSpanIdPiece := pyStr (getDefault e "parent_span_id" (JVal.str "N/A"))
          details := e.filter (fun kv => !(htmlExcludedKeys.contains kv.1)) }
  | _ => none

/-- The `service_name` extraction (buffer.py lines 477-481): the first
entry containing the key, else the fixed fallback. -/
def serviceNameOf : List Rec → JVal
  | [] => JVal.str "Unknown Service"
  | e :: rest =>
      match e.lookup "service_name" with
      | some v => v
      | none => serviceNameOf rest

/-- The fallback HTML document's record-dependent content. -/
structure Artifact where
  path : String
  entries : List EntryView
  service_name : JVal
  count : Nat
  deriving Repr, DecidableEq

/-- The entry loop of `_generate_html_trace`: every buffered record is
rendered in order; a crashing entry aborts the generation. -/
def mapEntries : List Rec → Option (List EntryView)
  | [] => some []
  | e :: es =>
    match entryView e, mapEntries es with
    | some v, some vs => some (v :: vs)
    | _, _ => none

/-- Embedding of `_export_to_html_fallback` (buffer.py lines 402-423): build the
timestamped path under `~/tmp/temp-trace/`, generate the document
(which can raise), and write it (which can raise). -/
def exportHtmlFallback (env : Env) (buffer : List Rec) : Except PyErr Artifact :=
  match mapEntries buffer with
  | none => Except.error PyErr.attributeError
  | some entries =>
      match env.fallbackWrite with
      | WriteOutcome.fail msg => Except.error (PyErr.ioError msg)
      | WriteOutcome.ok =>
          Except.ok
            { path := env.home ++ "/tmp/temp-trace/" ++ env.now ++ ".html"
              entries := entries
              service_name := serviceNameOf buffer
              count := buffer.length }

/-- Embedding of `_flush_http` (buffer.py lines 364-400): on success return the
server's JSON body; on any request failure produce the fallback artifact
and return the result dict naming its path and the original error. -/
def flush_http (env : Env) (buffer : List Rec) : Except PyErr Rec :=
  match env.net with
  | NetOutcome.ok body => Except.ok body
  | NetOutcome.fail err =>
      match exportHtmlFallback env buffer with
      | Except.error e => Except.error e
      | Except.ok art =>
          Except.ok
            [("ingested", JVal.num buffer.length),
             ("target", JVal.str "fallback_html"),
             ("path", JVal.str art.path),
             ("error", JVal.str err)]

/-- Embedding of `_flush_file` (buffer.py lines 494-505): append one line per entry;
a write failure raises to the caller, there is no fallback. -/
def flush_file (path : String) (env : Env) (buffer : List Rec) : Except PyErr Rec :=
  match env.fileWrite with
  | WriteOutcome.fail msg => Except.error (PyErr.ioError msg)
  | WriteOutcome.ok =>
      Except.ok
        [("ingested", JVal.num buffer.length),
         ("target", JVal.str "file"),
         ("path", JVal.str path)]

/-- Embedding of `_flush_stdout` (buffer.py lines 507-517). -/
def flush_stdout (env : Env) (buffer : List Rec) : Except PyErr Rec :=
  match env.stdoutWrite with
  | WriteOutcome.fail msg => Except.error (PyErr.ioError msg)
  | WriteOutcome.ok =>
      Except.ok
        [("ingested", JVal.num buffer.length),
         ("target", JVal.str "stdout")]

/-- Embedding of `flush` (buffer.py lines 335-362) as a function from the buffer to
the outcome and the buffer afterwards: empty buffer returns early with
no I/O; otherwise the handler runs, a raise propagates with the buffer
untouched, and only a produced result is followed by the
`clear_after` clearing. -/
def flushRun (tgt : Target) (env : Env) (buffer : List Rec) (clearAfter : Bool) :
    Except PyErr Rec × List Rec :=
  if buffer.isEmpty then
    (Except.ok [("ingested", JVal.num 0), ("message", JVal.str "No logs to send")], buffer)
  else
    let res :=
      match tgt with
      | Target.http _ => flush_http env buffer
      | Target.file p => flush_file p env buffer
      | Target.stdout => flush_stdout env buffer
    match res with
    | Except.error e => (Except.error e, buffer)
    | Except.ok r => (Except.ok r, if clearAfter then [] else buffer)

/-- Embedding of `trace_context` (buffer.py lines 519-538): `self.clear()`, run the
body inside the tracer span (the body's log calls append to the cleared
buffer; `bodyOutcome` is how the body exits), and `self.flush()` —
which, in the source, is reached only on a normal exit, since the
generator has no try/finally and an exception thrown at the yield
propagates.  Returns (outcome, buffer afterwards, whether flush ran). -/
def runTraceContext (tgt : Target) (env : Env) (bodyAppends : List Rec)
    (bodyOutcome : Except PyErr Unit) (_initialBuffer : List Rec) :
    Except PyErr Rec × List Rec × Bool :=
  let buf := bodyAppends
  match bodyOutcome with
  | Except.error e => (Except.error e, buf, false)
  | Except.ok _ =>
      let out := flushRun tgt env buf true
      (out.1, out.2, true)

/-! ## Claims -/

theorem isSome_normalize (d : Rec) :
    (normalize_record d).isSome
      = (truthy (pyGet d "trace_id") && truthy (pyGet d "span_id")) := by
  unfold normalize_record
  by_cases hc : (truthy (pyGet d "trace_id") && truthy (pyGet d "span_id")) = true
  · simp [hc]
  · simp only [Bool.not_eq_true] at hc
    simp [hc]

theorem truthy_pyGet_eq_hasNonemptyStr {d : Rec} {k : String}
    (h : isStrOrAbsent (d.lookup k) = true) :
    truthy (pyGet d k) = hasNonemptyStrField d k := by
  unfold pyGet hasNonemptyStrField
  cases hl : d.lookup k with
  | none => simp [truthy]
  | some v =>
    rw [hl] at h
    cases v <;> simp_all [isStrOrAbsent, truthy]

/-- C2: for a batch of N records of which K lack a non-empty `trace_id`
or a non-empty `span_id` (identifier fields being strings when present,
as the data model fixes), ingestion stores and reports exactly N − K
rows, and a record is stored iff both identifiers are present and
non-empty. -/
theorem claim_C2 (records : List Rec)
    (hids : ∀ d ∈ records, idFieldsAreStrings d) :
    ingest_count records
      = records.length
        - (records.filter (fun d =>
            !(hasNonemptyStrField d "trace_id" && hasNonemptyStrField d "span_id"))).length
    ∧ ∀ d ∈ records,
        ((normalize_record d).isSome = true
          ↔ (hasNonemptyStrField d "trace_id" && hasNonemptyStrField d "span_id") = true) := by
  have hpt : ∀ d ∈ records,
      (normalize_record d).isSome
        = (hasNonemptyStrField d "trace_id" && hasNonemptyStrField d "span_id") := by
    intro d hd
    rcases hids d hd with ⟨h1, h2⟩
    simp only [isSome_normalize, truthy_pyGet_eq_hasNonemptyStr h1,
      truthy_pyGet_eq_hasNonemptyStr h2]
  constructor
  · unfold ingest_count ingest_records
    rw [length_filterMap_eq_filter, List.filter_congr hpt]
    have hadd := length_filter_add_not
      (fun d => hasNonemptyStrField d "trace_id" && hasNonemptyStrField d "span_id") records
    omega
  · intro d hd
    exact iff_of_eq (congrArg (fun b => b = true) (hpt d hd))

def c2batch : List Rec :=
  [[("trace_id", JVal.str "t1"), ("span_id", JVal.str "s1"), ("event", JVal.str "a")],
   [("trace_id", JVal.str "t1")],
   [("trace_id", JVal.str ""), ("span_id", JVal.str "s2")],
   [("span_id", JVal.str "s3"), ("msg", JVal.str "hi")]]

theorem claim_C2_witness :
    ingest_count c2batch
      = c2batch.length
        - (c2batch.filter (fun d =>
            !(hasNonemptyStrField d "trace_id" && hasNonemptyStrField d "span_id"))).length :=
  (claim_C2 c2batch (by decide)).1

/-- C8: a trace id with zero stored rows yields `fetch_trace = none` and
a 404 from the endpoint — never an empty tree — and a trace id with at
least one row yields the full reconstructed tree. -/
theorem claim_C8 (table : List DbRow) (tid : String) :
    (fetch_trace table tid = none ↔ ∀ r ∈ table, r.trace_id ≠ tid)
    ∧ (get_trace table tid = Except.error 404 ↔ ∀ r ∈ table, r.trace_id ≠ tid)
    ∧ (∀ t, fetch_trace table tid = some t →
        get_trace table tid = Except.ok
          { trace_id := t.trace_id, roots := t.roots, children := t.children,
            parent_for_span := t.parent_for_span, title_for_span := t.title_for_span,
            logs_by_span := t.logs_by_span.map (fun sl => (sl.1, sl.2.map logOut)) }) := by
  have hempty : (traceRows table tid).isEmpty = true ↔ ∀ r ∈ table, r.trace_id ≠ tid := by
    rw [List.isEmpty_iff]
    constructor
    · intro h r hr htid
      have : r ∈ traceRows table tid := by
        unfold traceRows
        rw [mem_sortBy]
        exact List.mem_filter.mpr ⟨hr, by simp [htid]⟩
      rw [h] at this
      simp at this
    · intro h
      have : table.filter (fun r => r.trace_id == tid) = [] :=
        List.filter_eq_nil_iff.mpr (fun r hr => by simpa using h r hr)
      unfold traceRows
      rw [this]
      rfl
  have hfetch : fetch_trace table tid = none ↔ (traceRows table tid).isEmpty = true := by
    unfold fetch_trace
    by_cases hb : (traceRows table tid).isEmpty = true
    · simp [hb]
    · simp [hb]
  refine ⟨hfetch.trans hempty, ?_, ?_⟩
  · rw [← hfetch.trans hempty]
    cases hf : fetch_trace table tid with
    | none => simp [get_trace, hf]
    | some t => simp [get_trace, hf]
  · intro t ht
    unfold get_trace
    rw [ht]

def c8row : DbRow :=
  { id := 1, ts := some "2024-01-01T00:00:00", level := some "info", logger := none,
    event := some "step", attrs := [], trace_id := "T", span_id := "S",
    parent_span_id := none }

def c8table : List DbRow := [c8row]

def c8tree : Tree :=
  { trace_id := "T", roots := ["S"], children := [("S", [])],
    logs_by_span := [("S", [c8row])], parent_for_span := [("S", none)],
    title_for_span := [("S", JVal.str "step")] }

theorem claim_C8_witness :
    get_trace c8table "T" = Except.ok
      { trace_id := c8tree.trace_id, roots := c8tree.roots, children := c8tree.children,
        parent_for_span := c8tree.parent_for_span, title_for_span := c8tree.title_for_span,
        logs_by_span := c8tree.logs_by_span.map (fun sl => (sl.1, sl.2.map logOut)) } :=
  (claim_C8 c8table "T").2.2 c8tree (by decide)

/-- C5: `flush` never clears the buffer before a delivery result is
known — a raising delivery (in particular a file-target write failure,
which propagates as a hard error with no fallback) leaves the buffer
exactly as it was, and the buffer is cleared only after a success or
fallback result, and only when `clear_after` is set. -/
theorem claim_C5 (tgt : Target) (env : Env) (buf : List Rec) (ca : Bool) (p msg : String) :
    ((flushRun tgt env buf ca).1.isOk = false → (flushRun tgt env buf ca).2 = buf)
    ∧ (buf ≠ [] → env.fileWrite = WriteOutcome.fail msg →
        flushRun (Target.file p) env buf ca = (Except.error (PyErr.ioError msg), buf))
    ∧ ((flushRun tgt env buf ca).1.isOk = true → ca = false →
        (flushRun tgt env buf ca).2 = buf)
    ∧ ((flushRun tgt env buf ca).1.isOk = true → ca = true → buf ≠ [] →
        (flushRun tgt env buf ca).2 = []) := by
  refine ⟨?_, ?_, ?_, ?_⟩
  · intro h
    by_cases hb : buf.isEmpty
    · simp [flushRun, hb, Except.isOk, Except.toBool] at h
    · simp only [flushRun, hb, if_neg (by simpa using hb)] at h ⊢
      cases hres : (match tgt with
        | Target.http _ => flush_http env buf
        | Target.file p' => flush_file p' env buf
        | Target.stdout => flush_stdout env buf) with
      | error e => simp [hres]
      | ok r => simp [hres, Except.isOk, Except.toBool] at h
  · intro hne hfw
    have hb : buf.isEmpty = false := by
      simp [List.isEmpty_iff, hne]
    simp [flushRun, hb, flush_file, hfw]
  · intro hok hca
    by_cases hb : buf.isEmpty
    · simp [flushRun, hb]
    · simp only [flushRun, hb, if_neg (by simpa using hb)] at hok ⊢
      cases hres : (match tgt with
        | Target.http _ => flush_http env buf
        | Target.file p' => flush_file p' env buf
        | Target.stdout => flush_stdout env buf) with
      | error e => simp [hres]
      | ok r => simp [hres, hca]
  · intro hok hca hne
    have hb : buf.isEmpty = false := by
      simp [List.isEmpty_iff, hne]
    simp only [flushRun, hb, Bool.false_eq_true, if_false] at hok ⊢
    cases hres : (match tgt with
      | Target.http _ => flush_http env buf
      | Target.file p' => flush_file p' env buf
      | Target.stdout => flush_stdout env buf) with
    | error e => simp [hres, Except.isOk, Except.toBool] at hok
    | ok r => simp [hres, hca]

def c5env : Env :=
  { net := NetOutcome.ok [("ingested", JVal.num 1)], fileWrite := WriteOutcome.fail "disk full",
    fallbackWrite := WriteOutcome.ok, stdoutWrite := WriteOutcome.ok,
    home := "/home/user", now := "20240101_000000" }

def c5buf : List Rec := [[("event", JVal.str "work")]]

theorem claim_C5_witness :
    flushRun (Target.file "/var/log/app.jsonl") c5env c5buf true
      = (Except.error (PyErr.ioError "disk full"), c5buf) :=
  (claim_C5 (Target.file "/var/log/app.jsonl") c5env c5buf true "/var/log/app.jsonl"
    "disk full").2.1 (by decide) (by decide)

def c4env : Env :=
  { net := NetOutcome.ok [("ingested", JVal.num 1)], fileWrite := WriteOutcome.ok,
    fallbackWrite := WriteOutcome.ok, stdoutWrite := WriteOutcome.ok,
    home := "/home/user", now := "20240101_000000" }

def c4append : Rec := [("event", JVal.str "work"), ("level", JVal.str "info")]

/-- C4 as stated is false: on the exit path where the scope body raises,
`trace_context` (which has no try/finally) performs no flush — the
exception propagates with the buffered records still unflushed. -/
theorem claim_C4_counterexample :
    runTraceContext Target.stdout c4env [c4append] (Except.error (PyErr.raised "boom")) []
      = (Except.error (PyErr.raised "boom"), [c4append], false) := by
  rfl

/-- C4 amended: `trace_context` flushes exactly on the normal-exit path
(including an early return from the with-block); when the body raises,
the exception propagates without any flush, the scope's records staying
in the buffer (the pre-existing buffer content was cleared on entry). -/
theorem claim_C4_amended (tgt : Target) (env : Env) (bodyAppends : List Rec)
    (outc : Except PyErr Unit) (st : List Rec) :
    ((runTraceContext tgt env bodyAppends outc st).2.2 = true ↔ outc = Except.ok ())
    ∧ (outc = Except.ok () →
        runTraceContext tgt env bodyAppends outc st
          = ((flushRun tgt env bodyAppends true).1, (flushRun tgt env bodyAppends true).2, true))
    ∧ (∀ e, outc = Except.error e →
        runTraceContext tgt env bodyAppends outc st = (Except.error e, bodyAppends, false)) := by
  refine ⟨?_, ?_, ?_⟩
  · cases outc with
    | ok u =>
      cases u
      simp [runTraceContext]
    | error e => simp [runTraceContext]
  · intro h
    subst h
    rfl
  · intro e he
    subst he
    rfl

theorem claim_C4_witness :
    runTraceContext Target.stdout c4env [c4append] (Except.ok ()) []
      = ((flushRun Target.stdout c4env [c4append] true).1,
         (flushRun Target.stdout c4env [c4append] true).2, true) :=
  (claim_C4_amended Target.stdout c4env [c4append] (Except.ok ()) []).2.1 rfl

/-- C7: the stored `attrs` payload of an accepted record is exactly the
record restricted to its fields not recognized as standard (the known
names and their aliases), and retrieval serves that payload back
unchanged — so parsing the stored payload recovers precisely the
original non-standard fields (the stdlib JSON codec at the boundary is
the identity on JSON-representable mappings). -/
theorem claim_C7 (d : Rec) (sr : StoredRow) (h : normalize_record d = some sr) :
    sr.attrs = d.filter (fun kv => !(stdKeys.contains kv.1))
    ∧ ∀ r : DbRow, r.attrs = sr.attrs →
        (logOut r).attrs = d.filter (fun kv => !(stdKeys.contains kv.1)) := by
  have hattrs : sr.attrs = d.filter (fun kv => !(stdKeys.contains kv.1)) := by
    unfold normalize_record at h
    by_cases hc : (truthy (pyGet d "trace_id") && truthy (pyGet d "span_id")) = true
    · simp only [hc, if_true] at h
      cases h
      rfl
    · simp only [Bool.not_eq_true] at hc
      simp [hc] at h
  exact ⟨hattrs, fun r hr => hr.trans hattrs⟩

def c7rec : Rec :=
  [("trace_id", JVal.str "t"), ("span_id", JVal.str "s"),
   ("msg", JVal.str "hello"), ("user", JVal.str "alice"),
   ("payload", JVal.obj [("x", JVal.num 1), ("flags", JVal.arr [JVal.bool true, JVal.null])])]

def c7row : StoredRow :=
  { ts := JVal.null, level := JVal.null, logger := JVal.null, event := JVal.str "hello",
    trace_id := JVal.str "t", span_id := JVal.str "s", parent_span_id := JVal.null,
    attrs := [("user", JVal.str "alice"),
              ("payload", JVal.obj [("x", JVal.num 1),
                ("flags", JVal.arr [JVal.bool true, JVal.null])])] }

theorem claim_C7_witness :
    c7row.attrs = c7rec.filter (fun kv => !(stdKeys.contains kv.1)) :=
  (claim_C7 c7rec c7row (by decide)).1

/-- The `or`-chain over a field's alias keys as written in
`normalize_record`: the first truthy value wins; the last alias's value
(possibly falsy) is the final operand. -/
def aliasChain (d : Rec) : List String → JVal
  | [] => JVal.null
  | [k] => pyGet d k
  | k :: ks => pyOr (pyGet d k) (aliasChain d ks)

/-- The alias groups of `normalize_record`, in the source's priority
order (server.py lines 84-91). -/
def aliasGroups : List (List String) :=
  [["timestamp", "ts", "@timestamp"], ["level", "lvl"], ["logger", "name"],
   ["event", "message", "msg"], ["trace_id"], ["span_id"],
   ["parent_span_id", "parent_id"]]

/-- The alias whose value an `or`-chain takes: the first truthy one,
else the last. -/
def winnerKey (d : Rec) : List String → Option String
  | [] => none
  | [k] => some k
  | k :: ks => if truthy (pyGet d k) then some k else winnerKey d ks

/-- The key `k` is the alias whose value survives into the stored row. -/
def isWinner (d : Rec) (k : String) : Prop :=
  ∃ g ∈ aliasGroups, winnerKey d g = some k

instance (d : Rec) (k : String) : Decidable (isWinner d k) := by
  unfold isWinner
  infer_instance

/-- Removing a key from a Python dict. -/
def eraseKey (d : Rec) (k : String) : Rec :=
  d.filter (fun kv => !(kv.1 == k))

theorem lookup_eraseKey_self (d : Rec) (k : String) : (eraseKey d k).lookup k = none := by
  induction d with
  | nil => rfl
  | cons x xs ih =>
    by_cases hx : x.1 = k
    · simpa [eraseKey, List.filter_cons, hx] using ih
    · have h1 : (x.1 == k) = false := by simpa using hx
      have h2 : (k == x.1) = false := by simpa using (Ne.symm hx)
      simpa [eraseKey, List.filter_cons, h1, List.lookup, h2] using ih

theorem lookup_eraseKey_ne (d : Rec) (k k' : String) (h : k' ≠ k) :
    (eraseKey d k).lookup k' = d.lookup k' := by
  induction d with
  | nil => rfl
  | cons x xs ih =>
    by_cases hx : x.1 = k
    · have h1 : (x.1 == k) = true := by simpa using hx
      have h2 : (k' == x.1) = false := by
        simpa using fun he => h (he.trans hx)
      simpa [eraseKey, List.filter_cons, h1, List.lookup, h2] using ih
    · have h1 : (x.1 == k) = false := by simpa using hx
      by_cases hk : k' = x.1
      · have h2 : (k' == x.1) = true := by simpa using hk
        simp [eraseKey, List.filter_cons, h1, List.lookup, h2]
      · have h2 : (k' == x.1) = false := by simpa using hk
        simpa [eraseKey, List.filter_cons, h1, List.lookup, h2] using ih

theorem pyGet_eraseKey_self (d : Rec) (k : String) :
    pyGet (eraseKey d k) k = JVal.null := by
  simp [pyGet, lookup_eraseKey_self]

theorem pyGet_eraseKey_ne (d : Rec) (k k' : String) (h : k' ≠ k) :
    pyGet (eraseKey d k) k' = pyGet d k' := by
  simp [pyGet, lookup_eraseKey_ne d k k' h]

theorem aliasChain_eraseKey_notmem (d : Rec) (k : String) :
    ∀ ks : List String, k ∉ ks → aliasChain (eraseKey d k) ks = aliasChain d ks
  | [], _ => rfl
  | [k'], h => by
    simp only [aliasChain]
    exact pyGet_eraseKey_ne d k k' (fun he => h (by simp [he.symm]))
  | k' :: k'' :: ks, h => by
    simp only [aliasChain]
    rw [pyGet_eraseKey_ne d k k' (fun he => h (by simp [he.symm])),
      aliasChain_eraseKey_notmem d k (k'' :: ks) (fun hm => h (List.mem_cons_of_mem _ hm))]

theorem aliasChain_eraseKey_nonwinner (d : Rec) (k : String) :
    ∀ ks : List String, ks.Nodup → k ∈ ks → winnerKey d ks ≠ some k →
      aliasChain (eraseKey d k) ks = aliasChain d ks
  | [], _, hm, _ => by simp at hm
  | [k'], _, hm, hw => by
    simp only [List.mem_singleton] at hm
    subst hm
    simp [winnerKey] at hw
  | k' :: k'' :: ks, hnd, hm, hw => by
    simp only [aliasChain, winnerKey] at hw ⊢
    by_cases ht : truthy (pyGet d k') = true
    · rw [if_pos ht] at hw
      have hkk' : k ≠ k' := fun he => hw (by rw [he])
      rw [pyGet_eraseKey_ne d k k' (Ne.symm hkk')]
      simp [pyOr, ht]
    · rw [if_neg ht] at hw
      by_cases hkk' : k = k'
      · subst hkk'
        have hnotmem : k ∉ k'' :: ks := (List.nodup_cons.mp hnd).1
        rw [pyGet_eraseKey_self, aliasChain_eraseKey_notmem d k _ hnotmem]
        unfold pyOr
        rw [if_neg (show ¬ (truthy JVal.null = true) by simp [truthy]), if_neg ht]
      · have hm' : k ∈ k'' :: ks := by
          rcases List.mem_cons.mp hm with he | hm'
          · exact absurd he hkk'
          · exact hm'
        rw [pyGet_eraseKey_ne d k k' (Ne.symm hkk'),
          aliasChain_eraseKey_nonwinner d k (k'' :: ks) (List.nodup_cons.mp hnd).2 hm' hw]

theorem lookup_attrs_none (d : Rec) (k : String) (hk : k ∈ stdKeys) :
    (d.filter (fun kv => !(stdKeys.contains kv.1))).lookup k = none := by
  induction d with
  | nil => rfl
  | cons x xs ih =>
    by_cases hx : x.1 ∈ stdKeys
    · simpa [List.filter_cons, hx] using ih
    · have hne : (k == x.1) = false := by
        simp only [beq_eq_false_iff_ne, ne_eq]
        intro he
        exact hx (he ▸ hk)
      simpa [List.filter_cons, hx, List.lookup, hne] using ih

theorem filter_eraseKey_std (d : Rec) (k : String) (hk : k ∈ stdKeys) :
    (eraseKey d k).filter (fun kv => !(stdKeys.contains kv.1))
      = d.filter (fun kv => !(stdKeys.contains kv.1)) := by
  induction d with
  | nil => rfl
  | cons x xs ih =>
    by_cases hx : x.1 = k
    · simpa [eraseKey, List.filter_cons, hx, hk] using ih
    · by_cases h2 : x.1 ∈ stdKeys
      · simpa [eraseKey, List.filter_cons, hx, h2] using ih
      · simpa [eraseKey, List.filter_cons, hx, h2] using ih

/-- The row `normalize_record` builds in its success branch, written
out for reuse in proofs. -/
def normalizedRow (d : Rec) : StoredRow :=
  { ts := aliasChain d ["timestamp", "ts", "@timestamp"]
    level := aliasChain d ["level", "lvl"]
    logger := aliasChain d ["logger", "name"]
    event := aliasChain d ["event", "message", "msg"]
    trace_id := pyGet d "trace_id"
    span_id := pyGet d "span_id"
    parent_span_id := aliasChain d ["parent_span_id", "parent_id"]
    attrs := d.filter (fun kv => !(stdKeys.contains kv.1)) }

def c10rec : Rec :=
  [("trace_id", JVal.str "t"), ("span_id", JVal.str "s"),
   ("event", JVal.str ""), ("msg", JVal.str "boom")]

theorem normalize_record_eq_some (d : Rec)
    (hc : (truthy (pyGet d "trace_id") && truthy (pyGet d "span_id")) = true) :
    normalize_record d = some (normalizedRow d) := by
  unfold normalize_record
  rw [if_pos hc]
  rfl

/-- C10 as stated is false: this record carries both `event` (value `""`)
and `msg` (value `"boom"`); the highest-priority alias is `event`, yet
the stored field is `"boom"`, because the `or`-chain skips falsy values
rather than taking the highest-priority present alias. -/
theorem claim_C10_counterexample :
    c10rec.lookup "event" = some (JVal.str "")
    ∧ c10rec.lookup "msg" = some (JVal.str "boom")
    ∧ (normalize_record c10rec).map StoredRow.event = some (JVal.str "boom")
    ∧ ¬ (normalize_record c10rec).map StoredRow.event = some (JVal.str "") := by
  decide

/-- C10 amended: each stored field is the value of its alias
`or`-chain — the highest-priority alias with a truthy value, the last
alias's value when none is truthy; every alias key is removed from the
`attrs` payload; and removing any non-winning alias key leaves the
stored row unchanged, so a non-winning alias's value influences nothing. -/
theorem claim_C10_amended (d : Rec) (r : StoredRow) (h : normalize_record d = some r) :
    (r.ts = aliasChain d ["timestamp", "ts", "@timestamp"]
      ∧ r.level = aliasChain d ["level", "lvl"]
      ∧ r.logger = aliasChain d ["logger", "name"]
      ∧ r.event = aliasChain d ["event", "message", "msg"]
      ∧ r.parent_span_id = aliasChain d ["parent_span_id", "parent_id"])
    ∧ (∀ k ∈ stdKeys, r.attrs.lookup k = none)
    ∧ (∀ k ∈ stdKeys, ¬ isWinner d k → normalize_record (eraseKey d k) = some r) := by
  have hc : (truthy (pyGet d "trace_id") && truthy (pyGet d "span_id")) = true := by
    have hs := isSome_normalize d
    rw [h] at hs
    exact hs.symm
  have hrec : r = normalizedRow d := by
    unfold normalize_record at h
    rw [if_pos hc] at h
    exact (Option.some.inj h).symm
  refine ⟨?_, ?_, ?_⟩
  · rw [hrec]
    exact ⟨rfl, rfl, rfl, rfl, rfl⟩
  · intro k hk
    rw [hrec]
    exact lookup_attrs_none d k hk
  · intro k hk hw
    have hwg : ∀ g ∈ aliasGroups, winnerKey d g ≠ some k := by
      intro g hg hwk
      exact hw ⟨g, hg, hwk⟩
    have hktid : k ≠ "trace_id" := by
      intro he
      exact hwg ["trace_id"] (by simp [aliasGroups]) (by simp [winnerKey, he])
    have hksid : k ≠ "span_id" := by
      intro he
      exact hwg ["span_id"] (by simp [aliasGroups]) (by simp [winnerKey, he])
    have hchain : ∀ g ∈ aliasGroups,
        aliasChain (eraseKey d k) g = aliasChain d g := by
      intro g hg
      by_cases hm : k ∈ g
      · refine aliasChain_eraseKey_nonwinner d k g ?_ hm (hwg g hg)
        simp only [aliasGroups, List.mem_cons, List.not_mem_nil, or_false] at hg
        rcases hg with rfl | rfl | rfl | rfl | rfl | rfl | rfl <;> decide
      · exact aliasChain_eraseKey_notmem d k g hm
    have hc' : (truthy (pyGet (eraseKey d k) "trace_id")
        && truthy (pyGet (eraseKey d k) "span_id")) = true := by
      rw [pyGet_eraseKey_ne d k "trace_id" (Ne.symm hktid),
        pyGet_eraseKey_ne d k "span_id" (Ne.symm hksid)]
      exact hc
    rw [normalize_record_eq_some _ hc', hrec]
    have h1 := hchain ["timestamp", "ts", "@timestamp"] (by simp [aliasGroups])
    have h2 := hchain ["level", "lvl"] (by simp [aliasGroups])
    have h3 := hchain ["logger", "name"] (by simp [aliasGroups])
    have h4 := hchain ["event", "message", "msg"] (by simp [aliasGroups])
    have h5 := hchain ["parent_span_id", "parent_id"] (by simp [aliasGroups])
    simp only [Option.some.injEq, normalizedRow, StoredRow.mk.injEq]
    exact ⟨h1, h2, h3, h4,
      pyGet_eraseKey_ne d k "trace_id" (Ne.symm hktid),
      pyGet_eraseKey_ne d k "span_id" (Ne.symm hksid),
      h5, filter_eraseKey_std d k hk⟩

def c10wrec : Rec :=
  [("trace_id", JVal.str "t"), ("span_id", JVal.str "s"),
   ("event", JVal.str "first"), ("msg", JVal.str "second")]

def c10wrow : StoredRow :=
  { ts := JVal.null, level := JVal.null, logger := JVal.null,
    event := JVal.str "first", trace_id := JVal.str "t", span_id := JVal.str "s",
    parent_span_id := JVal.null, attrs := [] }

theorem claim_C10_witness :
    normalize_record (eraseKey c10wrec "msg") = some c10wrow :=
  (claim_C10_amended c10wrec c10wrow (by decide)).2.2 "msg" (by decide) (by decide)

/-- The six strings `_generate_html_trace` interpolates into an entry's
header (buffer.py lines 450-473): the severity badge, the timestamp, the
event line, and the three trace identifiers. -/
def headerPieces (v : EntryView) : List String :=
  [v.levelPiece, v.timestampPiece, v.eventPiece, v.traceIdPiece,
   v.spanIdPiece, v.parentSpanIdPiece]

/-- A field of the original record is contained in the rendered entry:
either the pair survives verbatim into the details dict (rendered whole
by `json.dumps`), or its value is one of the interpolated header
pieces. -/
def fieldShown (v : EntryView) (kv : String × JVal) : Prop :=
  kv ∈ v.details ∨ pyStr kv.2 ∈ headerPieces v

instance (v : EntryView) (kv : String × JVal) : Decidable (fieldShown v kv) := by
  unfold fieldShown
  infer_instance

def c1rec : Rec :=
  [("timestamp", JVal.str "2024-01-01T00:00:00"), ("level", JVal.str "info"),
   ("event", JVal.str "work"), ("trace_id", JVal.str "abc123"),
   ("span_id", JVal.str "def456"), ("logger", JVal.str "mylogger")]

def c1view : EntryView :=
  { levelPiece := "info", timestampPiece := "2024-01-01T00:00:00",
    eventPiece := "work", traceIdPiece := "abc123", spanIdPiece := "def456",
    parentSpanIdPiece := "N/A", details := [] }

/-- C1 as stated is false: the fallback HTML entry excludes the `logger`
key from the details dict and never renders it elsewhere, so a record's
`logger` field value appears nowhere in the artifact. -/
theorem claim_C1_counterexample :
    ("logger", JVal.str "mylogger") ∈ c1rec
    ∧ entryView c1rec = some c1view
    ∧ ¬ fieldShown c1view ("logger", JVal.str "mylogger") := by
  decide

theorem mapEntries_of_forall :
    ∀ l : List Rec, (∀ e ∈ l, (entryView e).isSome = true) →
      ∃ vs, mapEntries l = some vs
        ∧ List.Forall₂ (fun e v => entryView e = some v) l vs
  | [], _ => ⟨[], rfl, List.Forall₂.nil⟩
  | e :: es, h => by
    rcases Option.isSome_iff_exists.mp (h e (List.mem_cons_self _ _)) with ⟨v, hv⟩
    rcases mapEntries_of_forall es (fun x hx => h x (List.mem_cons_of_mem _ hx))
      with ⟨vs, hvs, hf⟩
    exact ⟨v :: vs, by simp [mapEntries, hv, hvs], List.Forall₂.cons hv hf⟩

theorem forall₂_mem_left {R : α → β → Prop} :
    ∀ {l : List α} {l' : List β}, List.Forall₂ R l l' → ∀ a ∈ l, ∃ b ∈ l', R a b := by
  intro l l' h
  induction h with
  | nil => intro a ha; simp at ha
  | cons hr _ ih =>
    intro a ha
    rcases List.mem_cons.mp ha with rfl | ha
    · exact ⟨_, List.mem_cons_self _ _, hr⟩
    · rcases ih a ha with ⟨b, hb, hrb⟩
      exact ⟨b, List.mem_cons_of_mem _ hb, hrb⟩

/-- The artifact `_export_to_html_fallback` produces when nothing
raises. -/
def fallbackArtifact (env : Env) (vs : List EntryView) (buffer : List Rec) : Artifact :=
  { path := env.home ++ "/tmp/temp-trace/" ++ env.now ++ ".html"
    entries := vs
    service_name := serviceNameOf buffer
    count := buffer.length }

theorem getDefault_of_mem {e : Rec} {k : String} {val d : JVal}
    (hkeys : (e.map Prod.fst).Nodup) (hkv : (k, val) ∈ e) :
    getDefault e k d = val := by
  unfold getDefault
  rw [lookup_eq_of_mem_of_nodup hkv hkeys]

/-- C1 amended: a non-empty batch whose remote delivery fails always
yields the local fallback artifact, whose entries preserve every field
of every record except `logger` (dropped entirely), the `level` value
appearing lowercased as the per-entry severity badge; the flush result
reports the artifact's path together with the original network error,
and nothing is raised to the caller. -/
theorem claim_C1_amended (url : String) (env : Env) (buffer : List Rec) (err : String)
    (ca : Bool)
    (hne : buffer ≠ [])
    (hnet : env.net = NetOutcome.fail err)
    (hwrite : env.fallbackWrite = WriteOutcome.ok)
    (hlevel : ∀ e ∈ buffer, ∃ s, getDefault e "level" (JVal.str "info") = JVal.str s)
    (hkeys : ∀ e ∈ buffer, (e.map Prod.fst).Nodup) :
    ∃ vs : List EntryView,
      mapEntries buffer = some vs
      ∧ exportHtmlFallback env buffer = Except.ok (fallbackArtifact env vs buffer)
      ∧ flushRun (Target.http url) env buffer ca
          = (Except.ok
              [("ingested", JVal.num buffer.length),
               ("target", JVal.str "fallback_html"),
               ("path", JVal.str (env.home ++ "/tmp/temp-trace/" ++ env.now ++ ".html")),
               ("error", JVal.str err)],
             if ca then [] else buffer)
      ∧ ∀ e ∈ buffer, ∃ v, v ∈ vs ∧ entryView e = some v
          ∧ (∀ kv ∈ e, kv.1 ≠ "logger" → kv.1 ≠ "level" → fieldShown v kv)
          ∧ (∀ kv ∈ e, kv.1 = "level" →
              ∃ s, kv.2 = JVal.str s ∧ v.levelPiece = pyLower s) := by
  have hsome : ∀ e ∈ buffer, (entryView e).isSome = true := by
    intro e he
    rcases hlevel e he with ⟨s, hs⟩
    unfold entryView
    rw [hs]
    rfl
  rcases mapEntries_of_forall buffer hsome with ⟨vs, hmapm, hf⟩
  have hexport : exportHtmlFallback env buffer = Except.ok (fallbackArtifact env vs buffer) := by
    unfold exportHtmlFallback
    rw [hmapm, hwrite]
    rfl
  refine ⟨vs, hmapm, hexport, ?_, ?_⟩
  · have hb : buffer.isEmpty = false := by
      simp [List.isEmpty_iff, hne]
    simp only [flushRun, hb, Bool.false_eq_true, if_false]
    unfold flush_http
    rw [hnet, hexport]
    rfl
  · intro e he
    rcases forall₂_mem_left hf e he with ⟨v, hvmem, hv⟩
    refine ⟨v, hvmem, hv, ?_, ?_⟩
    · rintro ⟨k, val⟩ hkv hk1 hk2
      simp only at hk1 hk2
      rcases hlevel e he with ⟨s, hs⟩
      unfold entryView at hv
      rw [hs] at hv
      have hvdef := (Option.some.inj hv)
      by_cases hmem : k ∈ htmlExcludedKeys
      · right
        have hget : ∀ d₀, getDefault e k d₀ = val :=
          fun d₀ => getDefault_of_mem (hkeys e he) hkv
        rw [← hvdef]
        simp only [headerPieces, htmlExcludedKeys, List.mem_cons, List.not_mem_nil,
          or_false] at hmem ⊢
        rcases hmem with rfl | rfl | rfl | rfl | rfl | rfl | rfl
        · exact absurd rfl hk2
        · exact Or.inr (Or.inr (Or.inl (by rw [hget])))
        · exact Or.inr (Or.inl (by rw [hget]))
        · exact Or.inr (Or.inr (Or.inr (Or.inl (by rw [hget]))))
        · exact Or.inr (Or.inr (Or.inr (Or.inr (Or.inl (by rw [hget])))))
        · exact Or.inr (Or.inr (Or.inr (Or.inr (Or.inr (by rw [hget])))))
        · exact absurd rfl hk1
      · left
        rw [← hvdef]
        simp only [List.mem_filter]
        refine ⟨hkv, ?_⟩
        simpa using hmem
    · rintro ⟨k, val⟩ hkv hk
      simp only at hk
      subst hk
      rcases hlevel e he with ⟨s, hs⟩
      have : val = JVal.str s := by
        rw [getDefault_of_mem (hkeys e he) hkv] at hs
        exact hs
      subst this
      unfold entryView at hv
      rw [hs] at hv
      exact ⟨s, rfl, by rw [← Option.some.inj hv]⟩

theorem summaryLe_total (a b : TraceSummary) :
    summaryLe a b = true ∨ summaryLe b a = true := by
  unfold summaryLe
  cases ha : a.end_ts with
  | none =>
    cases hb : b.end_ts with
    | none => left; rfl
    | some y => right; rfl
  | some x =>
    cases hb : b.end_ts with
    | none => left; rfl
    | some y => exact strLe_total y x

theorem summaryLe_trans (a b c : TraceSummary)
    (h₁ : summaryLe a b = true) (h₂ : summaryLe b c = true) : summaryLe a c = true := by
  unfold summaryLe at h₁ h₂ ⊢
  cases ha : a.end_ts with
  | none =>
    cases hc : c.end_ts with
    | none => rfl
    | some z =>
      cases hb : b.end_ts with
      | none =>
        rw [hb, hc] at h₂
        cases h₂
      | some y =>
        rw [ha, hb] at h₁
        cases h₁
  | some x =>
    cases hc : c.end_ts with
    | none => rfl
    | some z =>
      cases hb : b.end_ts with
      | none =>
        rw [hb, hc] at h₂
        cases h₂
      | some y =>
        rw [ha, hb] at h₁
        rw [hb, hc] at h₂
        exact strLe_trans h₂ h₁

def c9table : List DbRow :=
  [{ id := 1, ts := some "2024-01-01T00:00:01", level := some "info", logger := none,
     event := some "x", attrs := [], trace_id := "T1", span_id := "S1",
     parent_span_id := none },
   { id := 2, ts := some "2024-01-01T00:00:05", level := some "error", logger := none,
     event := some "y", attrs := [], trace_id := "T2", span_id := "S2",
     parent_span_id := none }]

/-- C9 as stated is false in its clamping part: an out-of-range `limit`
is not brought into range — FastAPI's `Query(100, ge=1, le=1000)`
validation rejects the request with 422 Unprocessable Entity. -/
theorem claim_C9_counterexample :
    list_traces c9table 5000 = Except.error "422 Unprocessable Entity" := by
  rfl

/-- C9 amended: an out-of-range limit yields a 422 validation error
(not a clamped result); for an in-range limit, the result has one
aggregate row per trace id (earliest and latest timestamp, row count),
is ordered by descending maximum timestamp (NULL last), and its length
is the caller's limit capped by the number of distinct traces. -/
theorem claim_C9_amended (table : List DbRow) (limit : Int) :
    ((limit < 1 ∨ 1000 < limit) →
      list_traces table limit = Except.error "422 Unprocessable Entity")
    ∧ (1 ≤ limit → limit ≤ 1000 →
        ∃ l, list_traces table limit = Except.ok l
          ∧ l.length = min limit.toNat (distinctTraceIds table).length
          ∧ (l.map TraceSummary.trace_id).Nodup
          ∧ (∀ s ∈ l, s.trace_id ∈ distinctTraceIds table
              ∧ s.start_ts = minTs (tsListOf table s.trace_id)
              ∧ s.end_ts = maxTs (tsListOf table s.trace_id)
              ∧ s.events = (table.filter (fun r => r.trace_id == s.trace_id)).length)
          ∧ l.Pairwise (fun a b => summaryLe a b = true)) := by
  constructor
  · intro hout
    unfold list_traces
    rw [if_pos (by
      rcases hout with h | h
      · simp [h]
      · simp [h])]
  · intro h1 h2
    have hcond : (limit < 1 || 1000 < limit) = false := by
      simp only [Bool.or_eq_false_iff, decide_eq_false_iff_not, not_lt]
      exact ⟨h1, h2⟩
    refine ⟨(sortBy summaryLe
      ((distinctTraceIds table).map (summaryOf table))).take limit.toNat, ?_, ?_, ?_, ?_, ?_⟩
    · unfold list_traces
      rw [if_neg (by simp [not_or, ← not_lt] at hcond ⊢; omega)]
    · rw [List.length_take, length_sortBy, List.length_map]
    · have hids : ∀ l : List String,
          (l.map (summaryOf table)).map TraceSummary.trace_id = l := by
        intro l
        induction l with
        | nil => rfl
        | cons x xs ih =>
          rw [List.map_cons, List.map_cons, ih]
          rfl
      have hperm : List.Perm ((sortBy summaryLe
          ((distinctTraceIds table).map (summaryOf table))).map TraceSummary.trace_id)
          (distinctTraceIds table) := by
        have hp := (perm_sortBy summaryLe
          ((distinctTraceIds table).map (summaryOf table))).map TraceSummary.trace_id
        rw [hids (distinctTraceIds table)] at hp
        exact hp
      have hnodup : ((sortBy summaryLe
          ((distinctTraceIds table).map (summaryOf table))).map
            TraceSummary.trace_id).Nodup :=
        hperm.nodup_iff.mpr (nodup_dedupFirst _)
      rw [List.map_take]
      exact List.Nodup.sublist (List.take_sublist _ _) hnodup
    · intro s hs
      have hs' : s ∈ (distinctTraceIds table).map (summaryOf table) :=
        (perm_sortBy _ _).mem_iff.mp (List.mem_of_mem_take hs)
      rcases List.mem_map.mp hs' with ⟨tid, htid, rfl⟩
      exact ⟨htid, rfl, rfl, rfl⟩
    · exact ((sorted_sortBy summaryLe_total
        (fun a b c => summaryLe_trans a b c) _).sublist (List.take_sublist _ _))

theorem claim_C9_witness :
    list_traces c9table 1001 = Except.error "422 Unprocessable Entity" :=
  (claim_C9_amended c9table 1001).1 (Or.inr (by decide))

def c1env : Env :=
  { net := NetOutcome.fail "Connection refused", fileWrite := WriteOutcome.ok,
    fallbackWrite := WriteOutcome.ok, stdoutWrite := WriteOutcome.ok,
    home := "/home/user", now := "20240101_120000" }

/-- The span-id key set of a reconstructed tree: the keys of the
children adjacency map. -/
def spanKeys (t : Tree) : List String := t.children.map Prod.fst

/-- How many times a span id is placed in the tree: as a root plus in
any parent's child list. -/
def countPlacements (t : Tree) (s : String) : Nat :=
  t.roots.count s + (t.children.map (fun pc => pc.2.count s)).sum

theorem count_filter_eq [DecidableEq α] {p : α → Bool} {l : List α} {a : α} :
    (l.filter p).count a = if p a = true then l.count a else 0 := by
  by_cases hpa : p a = true
  · rw [if_pos hpa]
    exact List.count_filter hpa
  · rw [if_neg hpa]
    exact List.count_eq_zero_of_not_mem (fun hmem => hpa (List.of_mem_filter hmem))

theorem sum_map_indicator (p₀ : String) :
    ∀ l : List String, (l.map (fun p => if p₀ = p then 1 else 0)).sum = l.count p₀
  | [] => by simp
  | x :: xs => by
    rw [List.count_cons]
    simp only [List.map_cons, List.sum_cons, sum_map_indicator p₀ xs]
    by_cases h : p₀ = x
    · rw [if_pos h, if_pos (by simp [h])]
      omega
    · have hne : ¬ x = p₀ := fun he => h he.symm
      rw [if_neg h, if_neg (by simp [hne])]
      omega

theorem map_fst_pair {β : Type _} (f : String → β) :
    ∀ l : List String, l.map (Prod.fst ∘ fun sid => (sid, f sid)) = l
  | [] => rfl
  | x :: xs => by
    simp only [List.map_cons, map_fst_pair f xs]
    rfl

theorem mem_traceRows {table : List DbRow} {tid : String} {r : DbRow} :
    r ∈ traceRows table tid ↔ r ∈ table ∧ r.trace_id = tid := by
  unfold traceRows
  rw [mem_sortBy, List.mem_filter]
  simp

theorem mem_spanIdsOf {rows : List DbRow} {s : String} :
    s ∈ spanIdsOf rows ↔ ∃ r ∈ rows, r.span_id = s := by
  unfold spanIdsOf
  rw [mem_dedupFirst, List.mem_map]

def c3table : List DbRow :=
  [{ id := 1, ts := some "2024-01-01T00:00:01", level := some "info", logger := none,
     event := some "a", attrs := [], trace_id := "T", span_id := "A", parent_span_id := none },
   { id := 2, ts := some "2024-01-01T00:00:02", level := some "info", logger := none,
     event := some "b", attrs := [], trace_id := "T", span_id := "B", parent_span_id := some "A" },
   { id := 3, ts := some "2024-01-01T00:00:03", level := some "info", logger := none,
     event := some "c", attrs := [], trace_id := "T", span_id := "C", parent_span_id := some "B" },
   { id := 4, ts := some "2024-01-01T00:00:04", level := some "info", logger := none,
     event := some "d", attrs := [], trace_id := "T", span_id := "D",
     parent_span_id := some "missing-span" }]

def c3tree : Tree := buildTree (traceRows c3table "T") "T"

set_option maxRecDepth 8000 in
/-- C3: the reconstructed tree partitions the trace's span ids — every
span id of the trace's rows appears exactly once as a key of `children`
(likewise of `title_for_span`, `parent_for_span` and `logs_by_span`) and
exactly once among the roots or in exactly one parent's child list,
never both and never omitted; a span whose recorded parent is absent
from the trace's span ids is a root; and on the concrete
A/B(parent A)/C(parent B)/D(parent missing-span) trace the result is
roots = [A, D], children A = [B], children B = [C]. -/
theorem claim_C3 (table : List DbRow) (tid : String) (t : Tree)
    (h : fetch_trace table tid = some t) :
    ((fetch_trace c3table "T").map (fun tr => (tr.roots, tr.children))
      = some (["A", "D"], [("A", ["B"]), ("B", ["C"]), ("C", []), ("D", [])]))
    ∧
    (spanKeys t).Nodup
    ∧ t.title_for_span.map Prod.fst = spanKeys t
    ∧ t.parent_for_span.map Prod.fst = spanKeys t
    ∧ t.logs_by_span.map Prod.fst = spanKeys t
    ∧ (∀ r ∈ table, r.trace_id = tid → r.span_id ∈ spanKeys t)
    ∧ (∀ s ∈ spanKeys t, ∃ r ∈ table, r.trace_id = tid ∧ r.span_id = s)
    ∧ (∀ s ∈ spanKeys t, countPlacements t s = 1)
    ∧ (∀ s, s ∉ spanKeys t → countPlacements t s = 0)
    ∧ (∀ s pOpt, (s, pOpt) ∈ t.parent_for_span →
        (pOpt = none ∨ ∃ p, pOpt = some p ∧ p ∉ spanKeys t) → s ∈ t.roots) := by
  have ht : t = buildTree (traceRows table tid) tid := by
    unfold fetch_trace at h
    by_cases hb : (traceRows table tid).isEmpty = true
    · rw [if_pos hb] at h
      cases h
    · rw [if_neg hb] at h
      exact (Option.some.inj h).symm
  subst ht
  refine ⟨by decide, ?_⟩
  set rows := traceRows table tid with hrows
  have hkeys : spanKeys (buildTree rows tid) = spanIdsOf rows := by
    unfold spanKeys buildTree
    rw [List.map_map]
    exact map_fst_pair _ _
  have hnd : (spanIdsOf rows).Nodup := nodup_dedupFirst _
  have hcount1 : ∀ s ∈ spanIdsOf rows, countPlacements (buildTree rows tid) s = 1 := by
    intro s hs
    unfold countPlacements buildTree
    simp only [List.map_map]
    have hchild : ∀ p, ((childrenOf rows p).count s)
        = if (isAttachedChild rows s && (recordedParent rows s == some p)) = true
          then 1 else 0 := by
      intro p
      unfold childrenOf
      rw [count_sortBy, count_filter_eq]
      by_cases hq : (isAttachedChild rows s && (recordedParent rows s == some p)) = true
      · rw [if_pos hq, if_pos hq]
        exact List.count_eq_one_of_mem hnd hs
      · rw [if_neg hq, if_neg hq]
    have hmapc : (spanIdsOf rows).map ((fun pc => pc.2.count s) ∘ fun sid => (sid, childrenOf rows sid))
        = (spanIdsOf rows).map (fun p =>
            if (isAttachedChild rows s && (recordedParent rows s == some p)) = true
            then 1 else 0) :=
      List.map_congr_left (fun p _ => hchild p)
    rw [hmapc]
    by_cases hatt : isAttachedChild rows s = true
    · have hroots : (rootsOf rows).count s = 0 := by
        unfold rootsOf
        rw [count_filter_eq, if_neg (by simp [hatt])]
      rcases hp : recordedParent rows s with _ | p₀
      · exfalso
        unfold isAttachedChild at hatt
        rw [hp] at hatt
        simp at hatt
      · have hp₀ : ¬ p₀ = "" ∧ p₀ ∈ spanIdsOf rows := by
          have hmm := hatt
          unfold isAttachedChild at hmm
          rw [hp] at hmm
          simpa using hmm
        have hmap2 : (spanIdsOf rows).map (fun p =>
            if (isAttachedChild rows s && ((some p₀ : Option String) == some p)) = true
            then 1 else 0)
            = (spanIdsOf rows).map (fun p => if p₀ = p then 1 else 0) := by
          refine List.map_congr_left (fun p _ => ?_)
          by_cases hpp : p₀ = p
          · rw [if_pos (by simp [hatt, hpp]), if_pos hpp]
          · rw [if_neg (by simp [hpp]), if_neg hpp]
        rw [hmap2, sum_map_indicator, hroots,
          List.count_eq_one_of_mem hnd hp₀.2]
    · have hroots : (rootsOf rows).count s = 1 := by
        unfold rootsOf
        rw [count_filter_eq, if_pos (by simp [hatt]),
          List.count_eq_one_of_mem hnd hs]
      have hmap2 : (spanIdsOf rows).map (fun p =>
          if (isAttachedChild rows s && (recordedParent rows s == some p)) = true
          then 1 else 0)
          = (spanIdsOf rows).map (fun _ => 0) := by
        refine List.map_congr_left (fun p _ => ?_)
        rw [if_neg (by simp [hatt])]
      rw [hmap2, hroots]
      simp
  have hcount0 : ∀ s, s ∉ spanIdsOf rows → countPlacements (buildTree rows tid) s = 0 := by
    intro s hs
    unfold countPlacements buildTree
    simp only [List.map_map]
    have hroots : (rootsOf rows).count s = 0 := by
      refine List.count_eq_zero_of_not_mem (fun hmem => hs ?_)
      exact List.mem_of_mem_filter hmem
    have hmap2 : (spanIdsOf rows).map ((fun pc => pc.2.count s) ∘ fun sid => (sid, childrenOf rows sid))
        = (spanIdsOf rows).map (fun _ => 0) := by
      refine List.map_congr_left (fun p _ => ?_)
      simp only [Function.comp]
      refine List.count_eq_zero_of_not_mem (fun hmem => hs ?_)
      unfold childrenOf at hmem
      rw [mem_sortBy] at hmem
      exact List.mem_of_mem_filter hmem
    rw [hroots, hmap2]
    simp
  rw [hkeys]
  refine ⟨hnd, by unfold buildTree; rw [List.map_map]; exact map_fst_pair _ _,
    by unfold buildTree; rw [List.map_map]; exact map_fst_pair _ _,
    by unfold buildTree; rw [List.map_map]; exact map_fst_pair _ _, ?_, ?_,
    hcount1, hcount0, ?_⟩
  · intro r hr htid
    exact mem_spanIdsOf.mpr ⟨r, mem_traceRows.mpr ⟨hr, htid⟩, rfl⟩
  · intro s hs
    rcases mem_spanIdsOf.mp hs with ⟨r, hr, hsp⟩
    rcases mem_traceRows.mp hr with ⟨hrt, htid⟩
    exact ⟨r, hrt, htid, hsp⟩
  · intro s pOpt hmem hcond
    have hmem' : s ∈ spanIdsOf rows ∧ pOpt = recordedParent rows s := by
      unfold buildTree at hmem
      simp only [List.mem_map] at hmem
      rcases hmem with ⟨sid, hsid, heq⟩
      cases heq
      exact ⟨hsid, rfl⟩
    rcases hmem' with ⟨hsmem, rfl⟩
    have hatt : isAttachedChild rows s = false := by
      unfold isAttachedChild
      rcases hcond with hnone | ⟨p, hp, hpnot⟩
      · rw [hnone]
      · rw [hp]
        simp only [Bool.and_eq_false_iff]
        right
        simpa using hpnot
    unfold buildTree rootsOf
    exact List.mem_filter.mpr ⟨hsmem, by simp [hatt]⟩

set_option maxRecDepth 8000 in
/-- The A/B/C/D example of C3, instantiated on the embedding: each of
the four span ids is placed exactly once in the reconstructed tree. -/
theorem claim_C3_witness :
    countPlacements c3tree "A" = 1 ∧ countPlacements c3tree "B" = 1
    ∧ countPlacements c3tree "C" = 1 ∧ countPlacements c3tree "D" = 1 := by
  have h := claim_C3 c3table "T" c3tree (by decide)
  have hp := h.2.2.2.2.2.2.2.1
  exact ⟨hp "A" (by decide), hp "B" (by decide), hp "C" (by decide), hp "D" (by decide)⟩

theorem claim_C1_witness :
    flushRun (Target.http "http://localhost:8000/api/ingest") c1env [c1rec] true
      = (Except.ok
          [("ingested", JVal.num ([c1rec] : List Rec).length),
           ("target", JVal.str "fallback_html"),
           ("path", JVal.str (c1env.home ++ "/tmp/temp-trace/" ++ c1env.now ++ ".html")),
           ("error", JVal.str "Connection refused")],
         []) := by
  obtain ⟨vs, _, _, h3, _⟩ := claim_C1_amended "http://localhost:8000/api/ingest" c1env
    [c1rec] "Connection refused" true (by decide) (by decide) (by decide)
    (by
      intro e he
      rw [List.mem_singleton] at he
      subst he
      exact ⟨"info", by decide⟩)
    (by decide)
  simpa using h3

theorem strLt_trans {a b c : String} (h₁ : strLt a b = true) (h₂ : strLt b c = true) :
    strLt a c = true :=
  charsLt_trans _ _ _ h₁ h₂

theorem strLt_asymm {a b : String} (h : strLt a b = true) : strLt b a = false :=
  charsLt_asymm _ _ h

theorem strLt_irrefl (a : String) : strLt a a = false :=
  charsLt_irrefl a.data

theorem rowLe_total (a b : DbRow) : rowLe a b = true ∨ rowLe b a = true := by
  unfold rowLe
  by_cases h1 : strLt (tsKey a) (tsKey b) = true
  · left
    simp [h1]
  · by_cases h2 : strLt (tsKey b) (tsKey a) = true
    · right
      simp [h2]
    · have he : tsKey a = tsKey b := by
        have := charsLt_eq_of_not (tsKey a).data (tsKey b).data
          (by simpa [strLt] using h1) (by simpa [strLt] using h2)
        exact string_ext this
      rcases Nat.le_total a.id b.id with hid | hid
      · left
        simp [he, hid]
      · right
        simp [he, hid]

theorem rowLe_trans (a b c : DbRow) (h₁ : rowLe a b = true) (h₂ : rowLe b c = true) :
    rowLe a c = true := by
  unfold rowLe at h₁ h₂ ⊢
  simp only [Bool.or_eq_true, Bool.and_eq_true, beq_iff_eq, decide_eq_true_eq] at h₁ h₂ ⊢
  rcases h₁ with h₁ | ⟨he₁, hid₁⟩
  · rcases h₂ with h₂ | ⟨he₂, hid₂⟩
    · exact Or.inl (strLt_trans h₁ h₂)
    · exact Or.inl (he₂ ▸ h₁)
  · rcases h₂ with h₂ | ⟨he₂, hid₂⟩
    · exact Or.inl (he₁ ▸ h₂)
    · exact Or.inr ⟨he₁.trans he₂, by omega⟩

/-- Strictly earlier in delivered order: smaller `COALESCE(ts, '')`,
ties broken by the monotonic insertion id (a NULL timestamp sorts
lowest, `''` being the least string). -/
def strictEarlier (a b : DbRow) : Prop :=
  strLt (tsKey a) (tsKey b) = true ∨ (tsKey a = tsKey b ∧ a.id < b.id)

/-- The row `r` is the first row of its span among trace `tid`'s rows. -/
def isFirstOfSpan (table : List DbRow) (tid : String) (r : DbRow) : Prop :=
  ∀ r' ∈ table, r'.trace_id = tid → r'.span_id = r.span_id → r' ≠ r → strictEarlier r r'

/-- The tree components the claim calls "the resulting tree": everything
except the per-span row lists. -/
def treeShape : Option Tree → Option (List String × List (String × List String)
    × List (String × Option String) × List (String × JVal))
  | none => none
  | some t => some (t.roots, t.children, t.parent_for_span, t.title_for_span)

/-- Replace the `parent_span_id` of the row with id `ρ`. -/
def updParent (ρ : Nat) (p : Option String) (r : DbRow) : DbRow :=
  if r.id = ρ then { r with parent_span_id := p } else r

theorem find?_sorted_min {le : α → α → Bool} {p : α → Bool} :
    ∀ {l : List α}, l.Pairwise (fun x y => le x y = true) → ∀ {r₀ : α},
      l.find? p = some r₀ →
      r₀ ∈ l ∧ p r₀ = true ∧ ∀ r' ∈ l, p r' = true → le r₀ r' = true ∨ r₀ = r' := by
  intro l hs
  induction l with
  | nil => intro r₀ hf; cases hf
  | cons x xs ih =>
    intro r₀ hf
    rcases List.pairwise_cons.mp hs with ⟨hx, hxs⟩
    by_cases hpx : p x = true
    · rw [List.find?_cons_of_pos _ hpx] at hf
      cases hf
      refine ⟨List.mem_cons_self _ _, hpx, ?_⟩
      intro r' hr' _
      rcases List.mem_cons.mp hr' with rfl | hr'
      · exact Or.inr rfl
      · exact Or.inl (hx r' hr')
    · rw [List.find?_cons_of_neg _ (by simpa using hpx)] at hf
      rcases ih hxs hf with ⟨hmem, hp₀, hmin⟩
      refine ⟨List.mem_cons_of_mem _ hmem, hp₀, ?_⟩
      intro r' hr' hpr'
      rcases List.mem_cons.mp hr' with rfl | hr'
      · exact absurd hpr' hpx
      · exact hmin r' hr' hpr'

theorem lookup_map_pair {β : Type _} (f : String → β) :
    ∀ l : List String, ∀ s ∈ l, (l.map (fun sid => (sid, f sid))).lookup s = some (f s)
  | [], s, hs => by simp at hs
  | x :: xs, s, hs => by
    by_cases hx : s = x
    · subst hx
      simp [List.lookup]
    · have h2 : (s == x) = false := by simpa using hx
      rcases List.mem_cons.mp hs with rfl | hs'
      · simp at h2
      · simp only [List.map_cons, List.lookup, h2]
        exact lookup_map_pair f xs s hs'

theorem rows_sorted (table : List DbRow) (tid : String) :
    (traceRows table tid).Pairwise (fun x y => rowLe x y = true) :=
  sorted_sortBy rowLe_total rowLe_trans _

/-- A row minimal in the delivered order, among rows of distinct ids, is
strictly earlier than every other row of its span. -/
theorem strictEarlier_of_min {table : List DbRow} {r₀ r' : DbRow}
    (hids : (table.map DbRow.id).Nodup)
    (h₀ : r₀ ∈ table) (h' : r' ∈ table) (hne : r' ≠ r₀)
    (hle : rowLe r₀ r' = true) : strictEarlier r₀ r' := by
  unfold rowLe at hle
  simp only [Bool.or_eq_true, Bool.and_eq_true, beq_iff_eq, decide_eq_true_eq] at hle
  rcases hle with hlt | ⟨he, hid⟩
  · exact Or.inl hlt
  · right
    refine ⟨he, ?_⟩
    rcases Nat.lt_or_ge r₀.id r'.id with h | h
    · exact h
    · exfalso
      have : r₀.id = r'.id := by omega
      exact hne (List.inj_on_of_nodup_map hids h' h₀ this.symm)

/-- C6 conjunct (a) core: the recorded parent of a span is the parent
of its strictly-earliest row. -/
theorem recordedParent_of_first {table : List DbRow} {tid : String} {r : DbRow}
    (hids : (table.map DbRow.id).Nodup)
    (hr : r ∈ table) (htr : r.trace_id = tid) (hfirst : isFirstOfSpan table tid r) :
    recordedParent (traceRows table tid) r.span_id = r.parent_span_id := by
  unfold recordedParent firstRowOf
  have hrmem : r ∈ traceRows table tid := mem_traceRows.mpr ⟨hr, htr⟩
  cases hf : (traceRows table tid).find? (fun x => x.span_id == r.span_id) with
  | none =>
    exfalso
    have := List.find?_eq_none.mp hf r hrmem
    simp at this
  | some r₀ =>
    rcases find?_sorted_min (rows_sorted table tid) hf with ⟨h₀mem, hp₀, hmin⟩
    have hsp : r₀.span_id = r.span_id := by simpa using hp₀
    have : r₀ = r := by
      by_contra hne
      rcases hmin r hrmem (by simp) with hle | heq
      · -- r₀ ≤ r in delivered order, and r is strictly earliest: contradiction
        rcases mem_traceRows.mp h₀mem with ⟨h₀t, h₀tr⟩
        have hse := hfirst r₀ h₀t h₀tr hsp (fun h => hne h)
        have hse₀ := strictEarlier_of_min hids
          (mem_traceRows.mp h₀mem).1 hr (fun h => hne h.symm) hle
        rcases hse with hlt | ⟨he, hid⟩ <;> rcases hse₀ with hlt₀ | ⟨he₀, hid₀⟩
        · rw [strLt_asymm hlt₀] at hlt
          cases hlt
        · rw [he₀] at hlt
          rw [strLt_irrefl] at hlt
          cases hlt
        · rw [he] at hlt₀
          rw [strLt_irrefl] at hlt₀
          cases hlt₀
        · omega
      · exact hne heq
    rw [this]
    rfl

/-- The map `parent_for_span` records the `parent_span_id` of the span's first
row in the order `COALESCE(ts,''), id`. -/
theorem fetch_parent_for_span_of_first (table : List DbRow) (tid : String) (t : Tree)
    (h : fetch_trace table tid = some t)
    (hids : (table.map DbRow.id).Nodup)
    (r : DbRow) (hr : r ∈ table) (htr : r.trace_id = tid)
    (hfirst : isFirstOfSpan table tid r) :
    t.parent_for_span.lookup r.span_id = some r.parent_span_id := by
  have ht : t = buildTree (traceRows table tid) tid := by
    unfold fetch_trace at h
    by_cases hb : (traceRows table tid).isEmpty = true
    · rw [if_pos hb] at h
      cases h
    · rw [if_neg hb] at h
      exact (Option.some.inj h).symm
  subst ht
  have hmem : r.span_id ∈ spanIdsOf (traceRows table tid) :=
    mem_spanIdsOf.mpr ⟨r, mem_traceRows.mpr ⟨hr, htr⟩, rfl⟩
  unfold buildTree
  simp only []
  rw [lookup_map_pair _ _ _ hmem,
    recordedParent_of_first hids hr htr hfirst]

theorem updParent_span (ρ : Nat) (p : Option String) (r : DbRow) :
    (updParent ρ p r).span_id = r.span_id := by
  unfold updParent
  split <;> rfl

theorem updParent_trace (ρ : Nat) (p : Option String) (r : DbRow) :
    (updParent ρ p r).trace_id = r.trace_id := by
  unfold updParent
  split <;> rfl

theorem updParent_ts (ρ : Nat) (p : Option String) (r : DbRow) :
    (updParent ρ p r).ts = r.ts := by
  unfold updParent
  split <;> rfl

theorem updParent_id (ρ : Nat) (p : Option String) (r : DbRow) :
    (updParent ρ p r).id = r.id := by
  unfold updParent
  split <;> rfl

theorem updParent_event (ρ : Nat) (p : Option String) (r : DbRow) :
    (updParent ρ p r).event = r.event := by
  unfold updParent
  split <;> rfl

theorem updParent_attrs (ρ : Nat) (p : Option String) (r : DbRow) :
    (updParent ρ p r).attrs = r.attrs := by
  unfold updParent
  split <;> rfl

theorem updParent_tsKey (ρ : Nat) (p : Option String) (r : DbRow) :
    tsKey (updParent ρ p r) = tsKey r := by
  unfold tsKey
  rw [updParent_ts]

theorem updParent_rowLe (ρ : Nat) (p : Option String) (a b : DbRow) :
    rowLe (updParent ρ p a) (updParent ρ p b) = rowLe a b := by
  unfold rowLe
  rw [updParent_tsKey, updParent_tsKey, updParent_id, updParent_id]

theorem insertBy_congr {le le' : α → α → Bool} (h : ∀ a b, le a b = le' a b) (a : α) :
    ∀ l : List α, insertBy le a l = insertBy le' a l
  | [] => rfl
  | b :: bs => by
    simp only [insertBy, h a b, insertBy_congr h a bs]

theorem sortBy_congr {le le' : α → α → Bool} (h : ∀ a b, le a b = le' a b) :
    ∀ l : List α, sortBy le l = sortBy le' l
  | [] => rfl
  | a :: as => by
    simp only [sortBy, sortBy_congr h as, insertBy_congr h a]

theorem traceRows_map_updParent (table : List DbRow) (tid : String) (ρ : Nat)
    (p : Option String) :
    traceRows (table.map (updParent ρ p)) tid
      = (traceRows table tid).map (updParent ρ p) := by
  unfold traceRows
  rw [List.filter_map]
  have hpred : ((fun r => r.trace_id == tid) ∘ updParent ρ p)
      = fun r => r.trace_id == tid := by
    funext r
    simp only [Function.comp]
    rw [updParent_trace]
  rw [hpred]
  exact sortBy_map rowLe rowLe (updParent ρ p) (fun a b => updParent_rowLe ρ p a b) _

theorem spanIdsOf_map_updParent (rows : List DbRow) (ρ : Nat) (p : Option String) :
    spanIdsOf (rows.map (updParent ρ p)) = spanIdsOf rows := by
  unfold spanIdsOf
  rw [List.map_map]
  refine congrArg dedupFirst (List.map_congr_left (fun r _ => ?_))
  simp only [Function.comp]
  rw [updParent_span]

theorem firstRowOf_map_updParent (rows : List DbRow) (ρ : Nat) (p : Option String)
    (sid : String) :
    firstRowOf (rows.map (updParent ρ p)) sid
      = (firstRowOf rows sid).map (updParent ρ p) := by
  unfold firstRowOf
  rw [List.find?_map]
  have hpred : ((fun r => r.span_id == sid) ∘ updParent ρ p)
      = fun r => r.span_id == sid := by
    funext r
    simp only [Function.comp]
    rw [updParent_span]
  rw [hpred]

theorem firstTs_map_updParent (rows : List DbRow) (ρ : Nat) (p : Option String)
    (sid : String) :
    firstTs (rows.map (updParent ρ p)) sid = firstTs rows sid := by
  unfold firstTs
  rw [firstRowOf_map_updParent]
  cases firstRowOf rows sid with
  | none => rfl
  | some r => simp [updParent_ts]

theorem recordedParent_map_updParent {table : List DbRow} {tid : String}
    (ρ : Nat) (p : Option String)
    (hids : (table.map DbRow.id).Nodup)
    (hnot : ∀ r ∈ table, r.id = ρ → r.trace_id = tid → ¬ isFirstOfSpan table tid r)
    (sid : String) :
    recordedParent ((traceRows table tid).map (updParent ρ p)) sid
      = recordedParent (traceRows table tid) sid := by
  unfold recordedParent
  rw [firstRowOf_map_updParent]
  cases hf : firstRowOf (traceRows table tid) sid with
  | none => rfl
  | some r₀ =>
    unfold firstRowOf at hf
    rcases find?_sorted_min (rows_sorted table tid) hf with ⟨h₀mem, hp₀, hmin⟩
    rcases mem_traceRows.mp h₀mem with ⟨h₀t, h₀tr⟩
    have hsp : r₀.span_id = sid := by simpa using hp₀
    have hfirst : isFirstOfSpan table tid r₀ := by
      intro r' hr' htr' hsp' hne
      have hr'mem : r' ∈ traceRows table tid := mem_traceRows.mpr ⟨hr', htr'⟩
      rcases hmin r' hr'mem (by simp [hsp', hsp]) with hle | heq
      · exact strictEarlier_of_min hids h₀t hr' hne hle
      · exact absurd heq.symm hne
    have hidne : ¬ r₀.id = ρ := fun hρ => hnot r₀ h₀t hρ h₀tr hfirst
    simp only [Option.map_some', Option.some_bind]
    unfold updParent
    rw [if_neg hidne]

theorem isAttachedChild_map_updParent {table : List DbRow} {tid : String}
    (ρ : Nat) (p : Option String)
    (hids : (table.map DbRow.id).Nodup)
    (hnot : ∀ r ∈ table, r.id = ρ → r.trace_id = tid → ¬ isFirstOfSpan table tid r)
    (sid : String) :
    isAttachedChild ((traceRows table tid).map (updParent ρ p)) sid
      = isAttachedChild (traceRows table tid) sid := by
  unfold isAttachedChild
  rw [recordedParent_map_updParent ρ p hids hnot sid, spanIdsOf_map_updParent]

theorem nodeTitle_map_updParent (rows : List DbRow) (ρ : Nat) (p : Option String)
    (sid : String) :
    nodeTitle (rows.map (updParent ρ p)) sid = nodeTitle rows sid := by
  unfold nodeTitle
  rw [firstRowOf_map_updParent]
  cases firstRowOf rows sid with
  | none => rfl
  | some r => simp [updParent_attrs, updParent_event]

theorem childrenOf_map_updParent {table : List DbRow} {tid : String}
    (ρ : Nat) (p : Option String)
    (hids : (table.map DbRow.id).Nodup)
    (hnot : ∀ r ∈ table, r.id = ρ → r.trace_id = tid → ¬ isFirstOfSpan table tid r)
    (q : String) :
    childrenOf ((traceRows table tid).map (updParent ρ p)) q
      = childrenOf (traceRows table tid) q := by
  unfold childrenOf
  rw [spanIdsOf_map_updParent]
  rw [List.filter_congr (fun sid _ => by
    rw [isAttachedChild_map_updParent ρ p hids hnot sid,
      recordedParent_map_updParent ρ p hids hnot sid])]
  exact sortBy_congr (fun a b => by
    unfold childLe
    rw [firstTs_map_updParent, firstTs_map_updParent]) _

theorem rootsOf_map_updParent {table : List DbRow} {tid : String}
    (ρ : Nat) (p : Option String)
    (hids : (table.map DbRow.id).Nodup)
    (hnot : ∀ r ∈ table, r.id = ρ → r.trace_id = tid → ¬ isFirstOfSpan table tid r) :
    rootsOf ((traceRows table tid).map (updParent ρ p)) = rootsOf (traceRows table tid) := by
  unfold rootsOf
  rw [spanIdsOf_map_updParent]
  exact List.filter_congr (fun sid _ => by
    rw [isAttachedChild_map_updParent ρ p hids hnot sid])

/-- C6: for every trace and every span in it, `parent_for_span` records
the `parent_span_id` of the span's first row — rows ordered by
`COALESCE(ts, '')` (a NULL timestamp lowest) with ties broken by the
monotonic insertion id — and rewriting the parent field of any row that
is not the first row of its span leaves the resulting tree (roots,
children, parent_for_span, title_for_span) unchanged. -/
theorem claim_C6 (table : List DbRow) (tid : String)
    (hids : (table.map DbRow.id).Nodup) :
    (∀ t, fetch_trace table tid = some t →
      ∀ r ∈ table, r.trace_id = tid → isFirstOfSpan table tid r →
        t.parent_for_span.lookup r.span_id = some r.parent_span_id)
    ∧ (∀ ρ p, (∀ r ∈ table, r.id = ρ → r.trace_id = tid → ¬ isFirstOfSpan table tid r) →
        treeShape (fetch_trace (table.map (updParent ρ p)) tid)
          = treeShape (fetch_trace table tid)) := by
  constructor
  · intro t h r hr htr hfirst
    exact fetch_parent_for_span_of_first table tid t h hids r hr htr hfirst
  · intro ρ p hnot
    unfold fetch_trace
    rw [traceRows_map_updParent]
    have hempty : ((traceRows table tid).map (updParent ρ p)).isEmpty
        = (traceRows table tid).isEmpty := by
      cases traceRows table tid <;> rfl
    rw [hempty]
    by_cases hb : (traceRows table tid).isEmpty = true
    · rw [if_pos hb, if_pos hb]
    · rw [if_neg hb, if_neg hb]
      unfold treeShape buildTree
      simp only [Option.some.injEq, Prod.mk.injEq]
      refine ⟨rootsOf_map_updParent ρ p hids hnot, ?_, ?_, ?_⟩
      · rw [spanIdsOf_map_updParent]
        exact List.map_congr_left (fun sid _ => by
          rw [childrenOf_map_updParent ρ p hids hnot sid])
      · rw [spanIdsOf_map_updParent]
        exact List.map_congr_left (fun sid _ => by
          rw [recordedParent_map_updParent ρ p hids hnot sid])
      · rw [spanIdsOf_map_updParent]
        exact List.map_congr_left (fun sid _ => by
          rw [nodeTitle_map_updParent])

instance (a b : DbRow) : Decidable (strictEarlier a b) := by
  unfold strictEarlier
  infer_instance

instance (table : List DbRow) (tid : String) (r : DbRow) :
    Decidable (isFirstOfSpan table tid r) := by
  unfold isFirstOfSpan
  infer_instance

def c6rowA : DbRow :=
  { id := 1, ts := some "2024-01-01T00:00:01", level := some "info", logger := none,
    event := some "a", attrs := [], trace_id := "T", span_id := "A", parent_span_id := none }

def c6rowB : DbRow :=
  { id := 2, ts := some "2024-01-01T00:00:02", level := some "info", logger := none,
    event := some "b", attrs := [], trace_id := "T", span_id := "B",
    parent_span_id := some "A" }

def c6rowB2 : DbRow :=
  { id := 5, ts := some "2024-01-01T00:00:03", level := some "info", logger := none,
    event := some "b2", attrs := [], trace_id := "T", span_id := "B",
    parent_span_id := some "Z" }

def c6table : List DbRow := [c6rowA, c6rowB, c6rowB2]

def c6tree : Tree := buildTree (traceRows c6table "T") "T"

set_option maxRecDepth 8000 in
/-- C6 instantiated: span B's recorded parent is the parent of its first
row (`A`, not the divergent `Z` of the later row), and rewriting the
later row's parent leaves the tree unchanged. -/
theorem claim_C6_witness :
    c6tree.parent_for_span.lookup "B" = some (some "A")
    ∧ treeShape (fetch_trace (c6table.map (updParent 5 (some "Q"))) "T")
        = treeShape (fetch_trace c6table "T") := by
  constructor
  · exact (claim_C6 c6table "T" (by decide)).1 c6tree (by decide) c6rowB
      (by decide) (by decide) (by decide)
  · exact (claim_C6 c6table "T" (by decide)).2 5 (some "Q") (by decide)

end Mytrace
